import Mathlib

/-!
VibratingMembrane: a damped leapfrog wave integrator on a circular domain

Shallow embedding of `src/inc/Components/Membrane/VibratingMembrane.h`.

* `std::vector<std::vector<float>>` is a `List (List ℚ)`: a finite `float` is
  the rational it denotes.  Every `float` operation of the integrator
  (`+`, `-`, `*` on lines 84-92) is the exact rational operation followed by
  `toFloat`, the IEEE-754 binary32 rounding (24-bit significand, round to
  nearest, ties to even, gradual underflow below `2 ^ (-126)`), applied in the
  order in which the source evaluates the expression.  The literal `0.99f` is
  `toFloat (99 / 100) = 4152361 / 4194304`; `0.25f`, `0.5f`, `1.0f`, `2.0f` and
  `4.0f` are exact.  Infinities and NaN are not modelled: `toFloat` is the
  binary32 result whenever that result is finite, that is for exact results
  below `2 ^ 128 - 2 ^ 103` in absolute value (`Finite32`); `stencil_noOverflow`
  shows that this covers every operation of the integrator on cells up to
  `2 ^ 100`.  Each operation is rounded on its own, as with
  `FLT_EVAL_METHOD == 0` and without contraction into fused multiply-adds.
* `int` is `Int`.  Every index the code uses is bounded by the loop bounds or by
  the guard of `mouseDown` before any arithmetic is done on it, so no `int`
  operation of the embedded code can overflow.
* `operator[]` outside the vector is undefined behaviour; here every indexed
  read and write is fallible and returns `none` when the index is out of range,
  so a function returning `some _` performed only in-range accesses.
-/

namespace VibratingMembrane

/-- A grid is a vector of rows, `grid[y][x]`. -/
abbrev Grid := List (List ℚ)

/-- Source line 118: `const int gridSize = 100;`. -/
def gridSize : Int := 100

/-- The three time slices owned by the component (source line 119). -/
structure Membrane where
  previous : Grid
  current : Grid
  next : Grid
deriving DecidableEq

/-- Indexed read `g[y][x]` with `int` indices; `none` when out of range. -/
def Grid.read (g : Grid) (y x : Int) : Option ℚ :=
  if 0 ≤ y ∧ 0 ≤ x then
    match g[y.toNat]? with
    | some row => row[x.toNat]?
    | none => none
  else none

/-- Indexed write `g[y][x] = v` with `int` indices; `none` when out of range. -/
def Grid.write (g : Grid) (y x : Int) (v : ℚ) : Option Grid :=
  if 0 ≤ y ∧ 0 ≤ x then
    match g[y.toNat]? with
    | some row =>
      if x.toNat < row.length then some (g.set y.toNat (row.set x.toNat v)) else none
    | none => none
  else none

/-- Source lines 104-109: three fresh `size × size` grids of zeros. -/
def resizeGrid (size : Int) : Membrane :=
  { previous := List.replicate size.toNat (List.replicate size.toNat 0)
    current := List.replicate size.toNat (List.replicate size.toNat 0)
    next := List.replicate size.toNat (List.replicate size.toNat 0) }

/-- The constructor (source lines 12-16): `resizeGrid(gridSize)`. -/
def init : Membrane := resizeGrid gridSize

/-- Source lines 111-116. -/
def isInsideCircle (x y centerX centerY radius : Int) : Bool :=
  let dx := x - centerX
  let dy := y - centerY
  decide (dx * dx + dy * dy ≤ radius * radius)

/-- The local `center = gridSize / 2` of `paint`, `mouseDown`, `timerCallback`. -/
def center : Int := gridSize / 2

/-- The local `radius = gridSize / 2 - 1` of `paint`, `mouseDown`, `timerCallback`. -/
def radius : Int := gridSize / 2 - 1

/-- The number of halvings that take `n` below `2`, at most `fuel` of them:
`⌊log₂ n⌋` when `n ≥ 1` and `fuel ≥ n`. -/
def halvings : Nat → Nat → Nat
  | 0, _ => 0
  | fuel + 1, n => if n < 2 then 0 else halvings fuel (n / 2) + 1

/-- The binary exponent of a non-zero rational: the `e` with
`2 ^ e ≤ |q| < 2 ^ (e + 1)`. -/
def binade (q : ℚ) : Int :=
  let a : Int := (halvings q.num.natAbs q.num.natAbs : Nat)
  let b : Int := (halvings q.den q.den : Nat)
  if q.den * 2 ^ (a - b).toNat ≤ q.num.natAbs * 2 ^ (b - a).toNat then a - b else a - b - 1

/-- The integer nearest to `n / d`, the even one when two are equally near. -/
def roundEven (n : Int) (d : Nat) : Int :=
  let f := n / (d : Int)
  let r := n % (d : Int)
  if 2 * r < d then f else if (d : Int) < 2 * r then f + 1 else if f % 2 = 0 then f else f + 1

/-- The value a `float` (IEEE-754 binary32) takes for the exact result `q`:
`q` rounded to the nearest multiple of `2 ^ e`, ties to the even multiple,
where `2 ^ e` is the spacing of the binary32 numbers around `q`
(`e = binade q - 23` for a 24-bit significand, and `e = -149` in the
subnormal range below `2 ^ (-126)`). -/
def toFloat (q : ℚ) : ℚ :=
  if q = 0 then 0 else
    let e : Int := max (binade q) (-126) - 23
    let m : Int := roundEven (q.num * 2 ^ (-e).toNat) (q.den * 2 ^ e.toNat)
    mkRat (m * 2 ^ e.toNat) (2 ^ (-e).toNat)

/-- The `float` sum `a + b`. -/
def fadd (a b : ℚ) : ℚ := toFloat (a + b)

/-- The `float` difference `a - b`. -/
def fsub (a b : ℚ) : ℚ := toFloat (a - b)

/-- The `float` product `a * b`. -/
def fmul (a b : ℚ) : ℚ := toFloat (a * b)

/-- The exact results for which the binary32 rounding is finite, so that
`toFloat` is that rounding: those below `2 ^ 128 - 2 ^ 103` in absolute value
(the largest `float` is `2 ^ 128 - 2 ^ 104`; from `2 ^ 128 - 2 ^ 103` on a
result rounds to an infinity). -/
def Finite32 (q : ℚ) : Prop := |q| < 2 ^ 128 - 2 ^ 103

/-- Source line 66: the literal `0.99f`. -/
def damping : ℚ := toFloat (99 / 100)

/-- Source line 67: the literal `0.25f`. -/
def c2 : ℚ := toFloat (1 / 4)

/-- Source line 64. -/
def timeStepsPerFrame : Int := 10

/-- Source lines 50-58: the guarded impulse of `mouseDown`, given the grid
coordinates `x`, `y` computed on lines 47-48 (the spec calls this
`excite(x, y)`).  The `&&` chain short-circuits, so `isInsideCircle` is only
evaluated for `1 < x, y < gridSize - 1`. -/
def mouseDown (s : Membrane) (x y : Int) : Option Membrane :=
  if (decide (x > 1) && decide (x < gridSize - 1) && decide (y > 1) && decide (y < gridSize - 1)
      && isInsideCircle x y center center radius) = true then
    (s.current.write y x 1).bind fun cur =>
    (s.previous.write y x (1 / 2)).bind fun prev =>
    some { s with current := cur, previous := prev }
  else some s

/-- The loop `for (int i = start; ...; ++i) body` run for `n` more iterations. -/
def forLoop {σ : Type} (body : Int → σ → Option σ) : Nat → Int → σ → Option σ
  | 0, _, s => some s
  | n + 1, i, s => (body i s).bind (forLoop body n (i + 1))

/-- The loop `for (int i = lo; i < hi; ++i) body`. -/
def forRange {σ : Type} (lo hi : Int) (body : Int → σ → Option σ) (s : σ) : Option σ :=
  forLoop body (hi - lo).toNat lo s

/-- Source lines 78-92: the body of the inner loop at cell `(x, y)`. -/
def updateCell (y x : Int) (s : Membrane) : Option Membrane :=
  if (!isInsideCircle x y center center radius) = true then
    (s.next.write y x 0).bind fun nxt => some { s with next := nxt }
  else
    (s.current.read (y + 1) x).bind fun up =>
    (s.current.read (y - 1) x).bind fun down =>
    (s.current.read y (x + 1)).bind fun right =>
    (s.current.read y (x - 1)).bind fun left =>
    (s.current.read y x).bind fun here =>
    let laplacian := fsub (fadd (fadd (fadd up down) right) left) (fmul 4 here)
    (s.previous.read y x).bind fun prev =>
    (s.next.write y x (fmul damping (fadd (fsub (fmul 2 here) prev) (fmul c2 laplacian)))).bind
      fun nxt => some { s with next := nxt }

/-- Source lines 74-94: the full-grid pass over the interior cells. -/
def gridPass (s : Membrane) : Option Membrane :=
  forRange 1 (gridSize - 1) (fun y s1 => forRange 1 (gridSize - 1) (fun x s2 => updateCell y x s2) s1) s

/-- Source lines 96-97: `std::swap(previous, current); std::swap(current, next);`. -/
def rotate (s : Membrane) : Membrane :=
  let s1 : Membrane := { s with previous := s.current, current := s.previous }
  { s1 with current := s1.next, next := s1.current }

/-- Source lines 71-97: one iteration of the `step` loop (an integration sub-step). -/
def subStep (s : Membrane) : Option Membrane :=
  (gridPass s).map rotate

/-- Source lines 62-101 (the spec calls this `advance()`); `repaint()` does not
touch the grids. -/
def timerCallback (s : Membrane) : Option Membrane :=
  forRange 0 timeStepsPerFrame (fun _ s1 => subStep s1) s

/-- Source lines 27-34: the values `current[y][x]` read by the renderer loop, in
raster order (the colour computed from each value is not modelled). -/
def paintReads (s : Membrane) : Option (List ℚ) :=
  forRange 0 gridSize (fun y acc =>
    forRange 0 gridSize (fun x acc1 =>
      if (!isInsideCircle x y center center radius) = true then some acc1
      else (s.current.read y x).bind fun value => some (acc1 ++ [value])) acc) []

/-- Run `n` integration sub-steps in sequence. -/
def subSteps : Nat → Membrane → Option Membrane
  | 0, s => some s
  | n + 1, s => (subStep s).bind (subSteps n)

/-- The calls a client can make. -/
inductive Call where
  | excite (x y : Int)
  | advance
deriving DecidableEq

/-- Run a sequence of calls, first call first. -/
def run : List Call → Membrane → Option Membrane
  | [], s => some s
  | Call.excite x y :: cs, s => (mouseDown s x y).bind (run cs)
  | Call.advance :: cs, s => (timerCallback s).bind (run cs)

/-- All three grids have `gridSize` rows of `gridSize` entries. -/
def Grid.Sized (g : Grid) : Prop :=
  g.length = gridSize.toNat ∧ ∀ row ∈ g, row.length = gridSize.toNat

/-- The class invariant on dimensions. -/
def Membrane.Sized (s : Membrane) : Prop :=
  s.previous.Sized ∧ s.current.Sized ∧ s.next.Sized

/-- The value `g[y][x]`, with `0` standing for a failed read. -/
def Grid.cell (g : Grid) (y x : Int) : ℚ := (g.read y x).getD 0

/-- Source lines 84-92: the `float` expression stored in `next[y][x]`, as a
function of the values read from `current[y][x]`, `previous[y][x]`,
`current[y + 1][x]`, `current[y - 1][x]`, `current[y][x + 1]` and
`current[y][x - 1]`. -/
def stencil (here prev up down right left : ℚ) : ℚ :=
  let laplacian := fsub (fadd (fadd (fadd up down) right) left) (fmul 4 here)
  fmul damping (fadd (fsub (fmul 2 here) prev) (fmul c2 laplacian))

/-- None of the ten `float` operations of source lines 84-92 overflows at a
cell with these values: the exact result of each one is in the range where
`toFloat` is the binary32 rounding. -/
def NoOverflow (here prev up down right left : ℚ) : Prop :=
  Finite32 (up + down) ∧ Finite32 (fadd up down + right) ∧
  Finite32 (fadd (fadd up down) right + left) ∧ Finite32 (4 * here) ∧
  Finite32 (fadd (fadd (fadd up down) right) left - fmul 4 here) ∧
  Finite32 (2 * here) ∧ Finite32 (fmul 2 here - prev) ∧
  Finite32 (c2 * fsub (fadd (fadd (fadd up down) right) left) (fmul 4 here)) ∧
  Finite32 (fsub (fmul 2 here) prev
    + fmul c2 (fsub (fadd (fadd (fadd up down) right) left) (fmul 4 here))) ∧
  Finite32 (damping * fadd (fsub (fmul 2 here) prev)
    (fmul c2 (fsub (fadd (fadd (fadd up down) right) left) (fmul 4 here))))

/-- The value the grid pass stores in `next[y][x]` for an interior cell
(source lines 78-92), as a function of the old `current` and `previous`. -/
def newValue (s : Membrane) (y x : Int) : ℚ :=
  if isInsideCircle x y center center radius = true then
    stencil (s.current.cell y x) (s.previous.cell y x)
      (s.current.cell (y + 1) x) (s.current.cell (y - 1) x)
      (s.current.cell y (x + 1)) (s.current.cell y (x - 1))
  else 0

/-- Whether `(x, y)` is one of the cells the integrator iterates over. -/
def interior (y x : Int) : Prop :=
  (1 ≤ y ∧ y < gridSize - 1) ∧ (1 ≤ x ∧ x < gridSize - 1)

instance (y x : Int) : Decidable (interior y x) := by unfold interior; infer_instance

/-- The cells `mouseDown` accepts. -/
def Accepted (x y : Int) : Prop :=
  1 < x ∧ x < 99 ∧ 1 < y ∧ y < 99 ∧ (x - 50) * (x - 50) + (y - 50) * (y - 50) ≤ 2401

/-- Every cell on the border ring or outside the domain circle is `0` in all
three buffers. -/
def Quiet (s : Membrane) : Prop :=
  s.Sized ∧ ∀ y x : Int, (¬ interior y x ∨ isInsideCircle x y center center radius = false) →
    s.previous.cell y x = 0 ∧ s.current.cell y x = 0 ∧ s.next.cell y x = 0

/-- Manhattan distance between the cells `(x, y)` and `(x0, y0)`. -/
def manhattan (x y x0 y0 : Int) : Nat := (x - x0).natAbs + (y - y0).natAbs

/-- Both time slices vanish further than `n` cells from `(x0, y0)`. -/
def Front (x0 y0 : Int) (n : Nat) (s : Membrane) : Prop :=
  ∀ y x : Int, n < manhattan x y x0 y0 → s.current.cell y x = 0 ∧ s.previous.cell y x = 0

/-- All three grids are symmetric under the exchange of `x` and `y`. -/
def Transposed (s : Membrane) : Prop :=
  ∀ y x : Int, s.previous.cell y x = s.previous.cell x y ∧
    s.current.cell y x = s.current.cell x y ∧ s.next.cell y x = s.next.cell x y

/-- The two time slices are symmetric under `y ↦ 100 - y` on the rows `1 .. 99`. -/
def Mirrored (s : Membrane) : Prop :=
  ∀ y x : Int, 1 ≤ y → y ≤ 99 →
    s.current.cell y x = s.current.cell (100 - y) x ∧
    s.previous.cell y x = s.previous.cell (100 - y) x

/-- One sub-step on the window of the rows and columns `45 .. 55` around the
centre cell: the pair (`current`, `previous`) as 11 x 11 grids, entry `[i][j]`
standing for the cell `(45 + j, 45 + i)`, cells outside the window reading `0`.
Every cell of the window is an active interior cell, so each entry is the
`stencil` of source lines 84-92. -/
def windowStep (w : Grid × Grid) : Grid × Grid :=
  ((List.range 11).map fun (i : Nat) => (List.range 11).map fun (j : Nat) =>
    stencil (w.1.cell (Int.ofNat i) (Int.ofNat j)) (w.2.cell (Int.ofNat i) (Int.ofNat j))
      (w.1.cell (Int.ofNat i + 1) (Int.ofNat j)) (w.1.cell (Int.ofNat i - 1) (Int.ofNat j))
      (w.1.cell (Int.ofNat i) (Int.ofNat j + 1)) (w.1.cell (Int.ofNat i) (Int.ofNat j - 1)),
    w.1)

/-- The window right after the impulse at the centre cell: `current = 1` and
`previous = 1/2` at the centre entry `[5][5]`. -/
def window0 : Grid × Grid :=
  ((List.range 11).map fun (i : Nat) => (List.range 11).map fun (j : Nat) =>
      if i = 5 ∧ j = 5 then 1 else 0,
    (List.range 11).map fun (i : Nat) => (List.range 11).map fun (j : Nat) =>
      if i = 5 ∧ j = 5 then 1 / 2 else 0)

/-- The `current` window one sub-step after the impulse, as `windowStep` computes it
(theorem `window_iterate`). -/
def window1 : Grid :=
  [[0, 0, 0, 0, 0, 0, 0, 0, 0, 0, 0],
    [0, 0, 0, 0, 0, 0, 0, 0, 0, 0, 0],
    [0, 0, 0, 0, 0, 0, 0, 0, 0, 0, 0],
    [0, 0, 0, 0, 0, 0, 0, 0, 0, 0, 0],
    [0, 0, 0, 0, 0, 4152361 / 16777216, 0, 0, 0, 0, 0],
    [0, 0, 0, 0, 4152361 / 16777216, 4152361 / 8388608, 4152361 / 16777216, 0, 0, 0, 0],
    [0, 0, 0, 0, 0, 4152361 / 16777216, 0, 0, 0, 0, 0],
    [0, 0, 0, 0, 0, 0, 0, 0, 0, 0, 0],
    [0, 0, 0, 0, 0, 0, 0, 0, 0, 0, 0],
    [0, 0, 0, 0, 0, 0, 0, 0, 0, 0, 0],
    [0, 0, 0, 0, 0, 0, 0, 0, 0, 0, 0]]

/-- The `current` window two sub-steps after the impulse, as `windowStep` computes it
(theorem `window_iterate`). -/
def window2 : Grid :=
  [[0, 0, 0, 0, 0, 0, 0, 0, 0, 0, 0],
    [0, 0, 0, 0, 0, 0, 0, 0, 0, 0, 0],
    [0, 0, 0, 0, 0, 0, 0, 0, 0, 0, 0],
    [0, 0, 0, 0, 0, 8221675 / 134217728, 0, 0, 0, 0, 0],
    [0, 0, 0, 0, 8221675 / 67108864, 385391 / 1048576, 8221675 / 67108864, 0, 0, 0, 0],
    [0, 0, 0, 8221675 / 134217728, 385391 / 1048576, -(8553863 / 33554432), 385391 / 1048576,
      8221675 / 134217728, 0, 0, 0],
    [0, 0, 0, 0, 8221675 / 67108864, 385391 / 1048576, 8221675 / 67108864, 0, 0, 0, 0],
    [0, 0, 0, 0, 0, 8221675 / 134217728, 0, 0, 0, 0, 0],
    [0, 0, 0, 0, 0, 0, 0, 0, 0, 0, 0],
    [0, 0, 0, 0, 0, 0, 0, 0, 0, 0, 0],
    [0, 0, 0, 0, 0, 0, 0, 0, 0, 0, 0]]

/-- The `current` window three sub-steps after the impulse, as `windowStep` computes it
(theorem `window_iterate`). -/
def window3 : Grid :=
  [[0, 0, 0, 0, 0, 0, 0, 0, 0, 0, 0],
    [0, 0, 0, 0, 0, 0, 0, 0, 0, 0, 0],
    [0, 0, 0, 0, 0, 16278917 / 1073741824, 0, 0, 0, 0, 0],
    [0, 0, 0, 0, 12209187 / 268435456, 10174323 / 67108864, 12209187 / 268435456, 0, 0, 0, 0],
    [0, 0, 0, 12209187 / 268435456, 10174323 / 33554432, 1103503 / 8388608, 10174323 / 33554432,
      12209187 / 268435456, 0, 0, 0],
    [0, 0, 16278917 / 1073741824, 10174323 / 67108864, 1103503 / 8388608, -(3175621 / 8388608),
      1103503 / 8388608, 10174323 / 67108864, 16278917 / 1073741824, 0, 0],
    [0, 0, 0, 12209187 / 268435456, 10174323 / 33554432, 1103503 / 8388608, 10174323 / 33554432,
      12209187 / 268435456, 0, 0, 0],
    [0, 0, 0, 0, 12209187 / 268435456, 10174323 / 67108864, 12209187 / 268435456, 0, 0, 0, 0],
    [0, 0, 0, 0, 0, 16278917 / 1073741824, 0, 0, 0, 0, 0],
    [0, 0, 0, 0, 0, 0, 0, 0, 0, 0, 0],
    [0, 0, 0, 0, 0, 0, 0, 0, 0, 0, 0]]

/-- The `current` window four sub-steps after the impulse, as `windowStep` computes it
(theorem `window_iterate`). -/
def window4 : Grid :=
  [[0, 0, 0, 0, 0, 0, 0, 0, 0, 0, 0],
    [0, 0, 0, 0, 0, 503629 / 134217728, 0, 0, 0, 0, 0],
    [0, 0, 0, 0, 16116127 / 1073741824, 3525403 / 67108864, 16116127 / 1073741824, 0, 0, 0, 0],
    [0, 0, 0, 12087095 / 536870912, 661013 / 4194304, 1243811 / 8388608, 661013 / 4194304,
      12087095 / 536870912, 0, 0, 0],
    [0, 0, 16116127 / 1073741824, 661013 / 4194304, 8943229 / 33554432, -(9375635 / 67108864),
      8943229 / 33554432, 661013 / 4194304, 16116127 / 1073741824, 0, 0],
    [0, 503629 / 134217728, 3525403 / 67108864, 1243811 / 8388608, -(9375635 / 67108864),
      8407619 / 1073741824, -(9375635 / 67108864), 1243811 / 8388608, 3525403 / 67108864,
      503629 / 134217728, 0],
    [0, 0, 16116127 / 1073741824, 661013 / 4194304, 8943229 / 33554432, -(9375635 / 67108864),
      8943229 / 33554432, 661013 / 4194304, 16116127 / 1073741824, 0, 0],
    [0, 0, 0, 12087095 / 536870912, 661013 / 4194304, 1243811 / 8388608, 661013 / 4194304,
      12087095 / 536870912, 0, 0, 0],
    [0, 0, 0, 0, 16116127 / 1073741824, 3525403 / 67108864, 16116127 / 1073741824, 0, 0, 0, 0],
    [0, 0, 0, 0, 0, 503629 / 134217728, 0, 0, 0, 0, 0],
    [0, 0, 0, 0, 0, 0, 0, 0, 0, 0, 0]]

/-- The state holds the values of the window on the rows and columns
`45 .. 55` and `0` everywhere else, in `current` and in `previous`. -/
def Agrees (s : Membrane) (w : Grid × Grid) : Prop :=
  ∀ y x : Int, s.current.cell y x = w.1.cell (y - 45) (x - 45) ∧
    s.previous.cell y x = w.2.cell (y - 45) (x - 45)

/-- The window is symmetric under the reflection of its columns and under the
exchange of rows and columns. -/
def WindowSym (g : Grid) : Prop :=
  ∀ i : Nat, i < 11 → ∀ j : Nat, j < 11 →
    g.cell (Int.ofNat i) (Int.ofNat j) = g.cell (Int.ofNat i) (10 - Int.ofNat j) ∧
    g.cell (Int.ofNat i) (Int.ofNat j) = g.cell (Int.ofNat j) (Int.ofNat i)

instance (g : Grid) : Decidable (WindowSym g) := by unfold WindowSym; infer_instance

/-- The value at the head of the disturbance on the column `x = 50`, `k`
sub-steps after the impulse at the centre: the cell `(50, 50 - k)` has had one
non-zero neighbour, `current[50 - k + 1][50]`, and was at rest itself. -/
def tip : Nat → ℚ
  | 0 => 1
  | k + 1 => stencil 0 0 (tip k) 0 0 0

/-- What is known `k` sub-steps after the impulse at the centre cell. -/
def Response (k : Nat) (s : Membrane) : Prop :=
  Quiet s ∧ Front 50 50 k s ∧ (k ≤ 48 → Mirrored s) ∧
    (k ≤ 5 → Agrees s (windowStep^[k] window0)) ∧
    (k ≤ 49 → s.current.cell (50 - (k : Int)) 50 = tip k)

/-- The `current` field is invariant under `x ↦ 100 - x`, `y ↦ 100 - y` and the
exchange of `x` and `y`, on the cells `1 .. 99`. -/
def FourFold (g : Grid) : Prop :=
  ∀ x y : Int, 1 ≤ x → x ≤ 99 → 1 ≤ y → y ≤ 99 →
    g.read y x = g.read y (100 - x) ∧ g.read y x = g.read (100 - y) x ∧
    g.read y x = g.read x y

/-- The constructed state with stale data `7` in the interior cell `(50, 50)` of
the scratch buffer `next`. -/
def staleExample : Membrane :=
  { previous := init.previous
    current := init.current
    next := (init.next.write 50 50 7).getD init.next }

/-- The 100 x 100 grid with the entries `f y x`. -/
def tabulate (f : Nat → Nat → ℚ) : Grid :=
  (List.range 100).map fun (y : Nat) => (List.range 100).map fun (x : Nat) => f y x

/-- A state whose three buffers differ at the border cell `(0, 0)`: `previous`
holds `3` there, `current` holds `5` and `next` holds `7`; everything else is `0`. -/
def rotationExample : Membrane :=
  { previous := tabulate fun y x => if y = 0 ∧ x = 0 then 3 else 0
    current := tabulate fun y x => if y = 0 ∧ x = 0 then 5 else 0
    next := tabulate fun y x => if y = 0 ∧ x = 0 then 7 else 0 }

/-- The state right after `excite(50,50)` on the constructed state. -/
def impulseExample : Membrane := (mouseDown init 50 50).getD init

/-- A state at rest except for four cells of `current` around the centre:
`current[51][50] = 1`, `current[49][50] = -1` and
`current[50][51] = current[50][49] = 2 ^ (-25)`, all of them `float` values. -/
def roundingExample : Membrane :=
  { previous := tabulate fun _ _ => 0
    current := tabulate fun y x =>
      if y = 51 ∧ x = 50 then 1 else if y = 49 ∧ x = 50 then -1
      else if y = 50 ∧ (x = 51 ∨ x = 49) then 1 / 33554432 else 0
    next := tabulate fun _ _ => 0 }

/-- The grid with the roles of `x` and `y` exchanged: entry `[y][x]` of the
result is `g[x][y]`. -/
def transposeGrid (g : Grid) : Grid :=
  (List.range gridSize.toNat).map fun (y : Nat) =>
    (List.range gridSize.toNat).map fun (x : Nat) => g.cell (Int.ofNat x) (Int.ofNat y)

/-- All three grids transposed. -/
def Membrane.transpose (s : Membrane) : Membrane :=
  { previous := transposeGrid s.previous
    current := transposeGrid s.current
    next := transposeGrid s.next }

/-- The update of every active interior cell is the same `float` when the
horizontal pair of neighbours is summed before the vertical pair, instead of
the vertical pair first as on source lines 84-85. -/
def Balanced (s : Membrane) : Prop :=
  ∀ y x : Int, interior y x → isInsideCircle x y center center radius = true →
    stencil (s.current.cell y x) (s.previous.cell y x)
        (s.current.cell y (x + 1)) (s.current.cell y (x - 1))
        (s.current.cell (y + 1) x) (s.current.cell (y - 1) x) =
      stencil (s.current.cell y x) (s.previous.cell y x)
        (s.current.cell (y + 1) x) (s.current.cell (y - 1) x)
        (s.current.cell y (x + 1)) (s.current.cell y (x - 1))

/-- The library function `juce::jlimit (lowerLimit, upperLimit, valueToConstrain)`
used on source line 37 (the spec calls `jlimit (0, 1, _)` `clamp01`). -/
def jlimit {K : Type} [LinearOrder K] (lowerLimit upperLimit valueToConstrain : K) : K :=
  if valueToConstrain < lowerLimit then lowerLimit
  else if upperLimit < valueToConstrain then upperLimit else valueToConstrain

/-- The library function `std::copysign (mag, sgn)`: the magnitude of `mag` with
the sign of `sgn` (there is no negative zero in exact arithmetic). -/
def copysign {K : Type} [LinearOrderedField K] (mag sgn : K) : K :=
  if sgn < 0 then -|mag| else |mag|

/-- The conversion `static_cast<uint8_t>` of a floating value: truncation toward
zero.  The result is kept as an integer; that it fits `uint8_t` is proved. -/
def truncate {K : Type} [LinearOrderedField K] [FloorRing K] (v : K) : Int :=
  if 0 ≤ v then Int.floor v else Int.ceil v

/-- Source line 35, with the library function `std::log10` as a parameter. -/
def logValue {K : Type} [LinearOrderedField K] (log10 : K → K) (value : K) : K :=
  log10 (1 + |value| * 100) / log10 101

/-- Source line 36. -/
def scaled {K : Type} [LinearOrderedField K] (log10 : K → K) (value : K) : K :=
  1 / 2 + 1 / 2 * copysign (logValue log10 value) value

/-- Source line 37: the brightness painted for the displacement `value`. -/
def brightness {K : Type} [LinearOrderedField K] [FloorRing K] (log10 : K → K) (value : K) :
    Int :=
  truncate (jlimit 0 1 (1 / 2 + 1 / 2 * scaled log10 value) * 255)

/-! ## Loops -/

theorem forLoop_inv {σ : Type} (body : Int → σ → Option σ) (Inv : Int → σ → Prop) :
    ∀ (n : Nat) (i : Int) (s : σ), Inv i s →
      (∀ j t, i ≤ j → j < i + n → Inv j t → ∃ t', body j t = some t' ∧ Inv (j + 1) t') →
      ∃ t, forLoop body n i s = some t ∧ Inv (i + n) t := by
  intro n
  induction n with
  | zero =>
    intro i s h _
    exact ⟨s, rfl, by simpa using h⟩
  | succ n ih =>
    intro i s h hstep
    obtain ⟨t', hb, ht'⟩ := hstep i s (le_refl _) (by push_cast; omega) h
    obtain ⟨t, hl, ht⟩ := ih (i + 1) t' ht' (fun j u h1 h2 hu =>
      hstep j u (by omega) (by push_cast; omega) hu)
    refine ⟨t, ?_, ?_⟩
    · simp [forLoop, hb, hl]
    · have : i + ((n + 1 : Nat) : Int) = i + 1 + (n : Int) := by push_cast; ring
      rw [this]; exact ht

theorem forRange_inv {σ : Type} (lo hi : Int) (body : Int → σ → Option σ)
    (Inv : Int → σ → Prop) (s : σ) (hle : lo ≤ hi) (h0 : Inv lo s)
    (hstep : ∀ j t, lo ≤ j → j < hi → Inv j t → ∃ t', body j t = some t' ∧ Inv (j + 1) t') :
    ∃ t, forRange lo hi body s = some t ∧ Inv hi t := by
  have hn : lo + ((hi - lo).toNat : Int) = hi := by
    rw [Int.toNat_of_nonneg (by omega)]; ring
  obtain ⟨t, h1, h2⟩ := forLoop_inv body Inv (hi - lo).toNat lo s h0
    (fun j u a b c => hstep j u a (by omega) c)
  exact ⟨t, h1, by rw [hn] at h2; exact h2⟩

/-! ## Reads and writes on grids -/

theorem gridSize_toNat : gridSize.toNat = 100 := rfl

theorem Grid.read_of_nat (g : Grid) (i j : Nat) :
    g.read (i : Int) (j : Int) = (g[i]?).bind (fun row => row[j]?) := by
  unfold Grid.read
  simp only [Int.natCast_nonneg, and_self, if_true, Int.toNat_ofNat]
  cases g[i]? <;> rfl

theorem Grid.read_neg (g : Grid) (y x : Int) (h : y < 0 ∨ x < 0) : g.read y x = none := by
  unfold Grid.read
  rw [if_neg (by omega)]

theorem Grid.write_of_nat (g : Grid) (i j : Nat) (v : ℚ) :
    g.write (i : Int) (j : Int) v =
      (g[i]?).bind (fun row => if j < row.length then some (g.set i (row.set j v)) else none) := by
  unfold Grid.write
  simp only [Int.natCast_nonneg, and_self, if_true, Int.toNat_ofNat]
  cases g[i]? <;> rfl

theorem Grid.write_neg (g : Grid) (y x : Int) (v : ℚ) (h : y < 0 ∨ x < 0) :
    g.write y x v = none := by
  unfold Grid.write
  rw [if_neg (by omega)]

/-- A read of a sized grid succeeds exactly on the indices `0 .. gridSize - 1`. -/
theorem Grid.Sized.read_some {g : Grid} (hg : g.Sized) {y x : Int}
    (hy : 0 ≤ y ∧ y < gridSize) (hx : 0 ≤ x ∧ x < gridSize) :
    g.read y x = some (g.cell y x) := by
  obtain ⟨i, rfl⟩ := Int.eq_ofNat_of_zero_le hy.1
  obtain ⟨j, rfl⟩ := Int.eq_ofNat_of_zero_le hx.1
  have hi : i < g.length := by rw [hg.1, gridSize_toNat]; simp [gridSize] at hy; omega
  have hj : j < (g[i]).length := by
    rw [hg.2 _ (List.getElem_mem hi), gridSize_toNat]; simp [gridSize] at hx; omega
  unfold Grid.cell
  rw [Grid.read_of_nat, List.getElem?_eq_getElem hi]
  simp [List.getElem?_eq_getElem hj]

theorem Grid.read_write {g g' : Grid} {y x : Int} {v : ℚ} (h : g.write y x v = some g')
    (y' x' : Int) :
    g'.read y' x' = if y' = y ∧ x' = x then some v else g.read y' x' := by
  by_cases hneg : y < 0 ∨ x < 0
  · rw [Grid.write_neg g y x v hneg] at h; cases h
  obtain ⟨i, rfl⟩ := Int.eq_ofNat_of_zero_le (show 0 ≤ y by omega)
  obtain ⟨j, rfl⟩ := Int.eq_ofNat_of_zero_le (show 0 ≤ x by omega)
  rw [Grid.write_of_nat] at h
  cases hrow : g[i]? with
  | none => rw [hrow] at h; cases h
  | some row =>
    rw [hrow] at h
    by_cases hj : j < row.length
    · simp only [Option.some_bind, if_pos hj, Option.some.injEq] at h
      subst h
      have hi : i < g.length := by
        by_contra hc
        rw [List.getElem?_eq_none (by omega)] at hrow; cases hrow
      by_cases hneg' : y' < 0 ∨ x' < 0
      · rw [Grid.read_neg _ _ _ hneg', Grid.read_neg _ _ _ hneg', if_neg (by omega)]
      obtain ⟨i', rfl⟩ := Int.eq_ofNat_of_zero_le (show 0 ≤ y' by omega)
      obtain ⟨j', rfl⟩ := Int.eq_ofNat_of_zero_le (show 0 ≤ x' by omega)
      rw [Grid.read_of_nat, Grid.read_of_nat, List.getElem?_set]
      by_cases hii : i = i'
      · subst hii
        simp only [if_true, hi, hrow, Option.some_bind, List.getElem?_set]
        by_cases hjj : j = j'
        · subst hjj; simp [hj]
        · have : ¬ ((j' : Int) = (j : Int)) := by omega
          simp [hjj, this]
      · have : ¬ ((i' : Int) = (i : Int)) := by omega
        simp [hii, this]
    · simp [hj] at h

theorem Grid.Sized.write {g : Grid} (hg : g.Sized) {y x : Int}
    (hy : 0 ≤ y ∧ y < gridSize) (hx : 0 ≤ x ∧ x < gridSize) (v : ℚ) :
    ∃ g', g.write y x v = some g' ∧ g'.Sized := by
  obtain ⟨i, rfl⟩ := Int.eq_ofNat_of_zero_le hy.1
  obtain ⟨j, rfl⟩ := Int.eq_ofNat_of_zero_le hx.1
  have hi : i < g.length := by rw [hg.1, gridSize_toNat]; simp [gridSize] at hy; omega
  have hj : j < (g[i]).length := by
    rw [hg.2 _ (List.getElem_mem hi), gridSize_toNat]; simp [gridSize] at hx; omega
  refine ⟨g.set i ((g[i]).set j v), ?_, ?_, ?_⟩
  · rw [Grid.write_of_nat, List.getElem?_eq_getElem hi]
    simp [hj]
  · rw [List.length_set]; exact hg.1
  · intro row hrow
    rcases List.mem_or_eq_of_mem_set hrow with h | h
    · exact hg.2 _ h
    · rw [h, List.length_set]; exact hg.2 _ (List.getElem_mem hi)

/-- A successful write keeps the dimensions. -/
theorem Grid.Sized.of_write {g g' : Grid} (hg : g.Sized) {y x : Int} {v : ℚ}
    (h : g.write y x v = some g') : g'.Sized := by
  by_cases hneg : y < 0 ∨ x < 0
  · rw [Grid.write_neg g y x v hneg] at h; cases h
  obtain ⟨i, rfl⟩ := Int.eq_ofNat_of_zero_le (show 0 ≤ y by omega)
  obtain ⟨j, rfl⟩ := Int.eq_ofNat_of_zero_le (show 0 ≤ x by omega)
  rw [Grid.write_of_nat] at h
  cases hrow : g[i]? with
  | none => rw [hrow] at h; cases h
  | some row =>
    rw [hrow] at h
    by_cases hj : j < row.length
    · simp only [Option.some_bind, if_pos hj, Option.some.injEq] at h
      subst h
      refine ⟨by rw [List.length_set]; exact hg.1, ?_⟩
      intro r hr
      rcases List.mem_or_eq_of_mem_set hr with h | h
      · exact hg.2 _ h
      · rw [h, List.length_set]; exact hg.2 _ (List.getElem?_mem hrow)
    · simp [hj] at h

/-- Two sized grids that agree on every in-range read are equal. -/
theorem Grid.Sized.ext {g h : Grid} (hg : g.Sized) (hh : h.Sized)
    (hread : ∀ y x : Int, 0 ≤ y → y < gridSize → 0 ≤ x → x < gridSize →
      g.read y x = h.read y x) : g = h := by
  apply List.ext_getElem (by rw [hg.1, hh.1])
  intro i hi1 hi2
  have hgi := hg.2 _ (List.getElem_mem hi1)
  have hhi := hh.2 _ (List.getElem_mem hi2)
  apply List.ext_getElem (by rw [hgi, hhi])
  intro j hj1 hj2
  have hi : (i : Int) < gridSize := by
    have := hg.1; rw [gridSize_toNat] at this; simp [gridSize]; omega
  have hj : (j : Int) < gridSize := by
    rw [gridSize_toNat] at hgi; simp [gridSize]; omega
  have := hread i j (by omega) hi (by omega) hj
  rw [Grid.read_of_nat, Grid.read_of_nat, List.getElem?_eq_getElem hi1,
    List.getElem?_eq_getElem hi2] at this
  simpa [List.getElem?_eq_getElem hj1, List.getElem?_eq_getElem hj2] using this

theorem tabulate_read (n : Nat) (f : Nat → Nat → ℚ) (i j : Nat) :
    Grid.read ((List.range n).map fun y => (List.range n).map fun x => f y x) (i : Int) (j : Int)
      = if i < n ∧ j < n then some (f i j) else none := by
  rw [Grid.read_of_nat, List.getElem?_map]
  by_cases hi : i < n
  · rw [List.getElem?_range hi]
    simp only [Option.map_some', Option.some_bind, List.getElem?_map]
    by_cases hj : j < n
    · rw [List.getElem?_range hj, if_pos ⟨hi, hj⟩]
      rfl
    · rw [List.getElem?_eq_none (by rw [List.length_range]; omega), if_neg (fun h => hj h.2)]
      rfl
  · rw [List.getElem?_eq_none (by rw [List.length_range]; omega), if_neg (fun h => hi h.1)]
    rfl

theorem tabulate_sized (f : Nat → Nat → ℚ) : (tabulate f).Sized := by
  unfold tabulate
  refine ⟨by rw [List.length_map, List.length_range, gridSize_toNat], ?_⟩
  intro row hrow
  rw [List.mem_map] at hrow
  obtain ⟨y, _, rfl⟩ := hrow
  rw [List.length_map, List.length_range, gridSize_toNat]

theorem tabulate_cell (f : Nat → Nat → ℚ) (y x : Int) :
    (tabulate f).cell y x =
      if (0 ≤ y ∧ y < 100) ∧ (0 ≤ x ∧ x < 100) then f y.toNat x.toNat else 0 := by
  by_cases hneg : y < 0 ∨ x < 0
  · unfold Grid.cell
    rw [Grid.read_neg _ y x hneg, if_neg (by omega)]
    rfl
  obtain ⟨i, rfl⟩ := Int.eq_ofNat_of_zero_le (show 0 ≤ y by omega)
  obtain ⟨j, rfl⟩ := Int.eq_ofNat_of_zero_le (show 0 ≤ x by omega)
  unfold Grid.cell tabulate
  rw [tabulate_read 100 f i j]
  by_cases h : i < 100 ∧ j < 100
  · rw [if_pos h, if_pos (by omega)]
    rfl
  · rw [if_neg h, if_neg (by omega)]
    rfl

theorem rotationExample_sized : rotationExample.Sized :=
  ⟨tabulate_sized _, tabulate_sized _, tabulate_sized _⟩

theorem rotationExample_reads :
    rotationExample.previous.read 0 0 = some 3 ∧ rotationExample.current.read 0 0 = some 5 ∧
      rotationExample.next.read 0 0 = some 7 := by
  have r : ∀ (f : Nat → Nat → ℚ) (v : ℚ), f 0 0 = v → (tabulate f).read 0 0 = some v := by
    intro f v hv
    rw [(tabulate_sized f).read_some (by decide) (by decide), tabulate_cell,
      if_pos (by decide), ← hv]
    rfl
  exact ⟨r (fun y x => if y = 0 ∧ x = 0 then 3 else 0) 3 (if_pos ⟨rfl, rfl⟩),
    r (fun y x => if y = 0 ∧ x = 0 then 5 else 0) 5 (if_pos ⟨rfl, rfl⟩),
    r (fun y x => if y = 0 ∧ x = 0 then 7 else 0) 7 (if_pos ⟨rfl, rfl⟩)⟩

/-! ## Rounding to `float` -/

theorem toFloat_zero : toFloat 0 = 0 := by simp [toFloat]

theorem halvings_spec : ∀ (fuel n : Nat), 1 ≤ n → n ≤ fuel →
    2 ^ halvings fuel n ≤ n ∧ n < 2 ^ (halvings fuel n + 1) := by
  intro fuel
  induction fuel with
  | zero => intro n h1 h2; omega
  | succ fuel ih =>
    intro n h1 h2
    unfold halvings
    by_cases h : n < 2
    · rw [if_pos h]
      have : n = 1 := by omega
      subst this
      simp
    · rw [if_neg h]
      obtain ⟨a, b⟩ := ih (n / 2) (by omega) (by omega)
      rw [pow_succ, pow_succ] at *
      constructor <;> omega

theorem roundEven_le {n M : Int} {d : Nat} (hd : 0 < d) (h : n ≤ M * d) : roundEven n d ≤ M := by
  have hd' : (0 : Int) < d := by exact_mod_cast hd
  have e := Int.ediv_add_emod n d
  have r0 := Int.emod_nonneg n (ne_of_gt hd')
  have r1 := Int.emod_lt_of_pos n hd'
  have hf : n / (d : Int) ≤ M := by
    by_contra hc
    have : M + 1 ≤ n / (d : Int) := by omega
    have := mul_le_mul_of_nonneg_left this (le_of_lt hd')
    nlinarith
  unfold roundEven
  simp only
  split_ifs with c1 c2 c3
  · exact hf
  · by_contra hc
    have hfM : n / (d : Int) = M := by omega
    rw [hfM] at e
    nlinarith
  · exact hf
  · by_contra hc
    have hfM : n / (d : Int) = M := by omega
    rw [hfM] at e
    nlinarith

theorem le_roundEven {n M : Int} {d : Nat} (hd : 0 < d) (h : M * d ≤ n) : M ≤ roundEven n d := by
  have hd' : (0 : Int) < d := by exact_mod_cast hd
  have e := Int.ediv_add_emod n d
  have r0 := Int.emod_nonneg n (ne_of_gt hd')
  have r1 := Int.emod_lt_of_pos n hd'
  have hf : M ≤ n / (d : Int) := by
    by_contra hc
    have : n / (d : Int) + 1 ≤ M := by omega
    have := mul_le_mul_of_nonneg_left this (le_of_lt hd')
    nlinarith
  unfold roundEven
  simp only
  split_ifs <;> omega

theorem abs_eq_natAbs_div (q : ℚ) : |q| = (q.num.natAbs : ℚ) / (q.den : ℚ) := by
  have h : |q| = |(q.num : ℚ) / (q.den : ℚ)| := by rw [Rat.num_div_den]
  rw [h, abs_div, Nat.abs_cast, Int.cast_natAbs, Int.cast_abs]

/-- `binade` is at most the binary exponent. -/
theorem binade_le {q : ℚ} (hq : q ≠ 0) : (2 : ℚ) ^ binade q ≤ |q| := by
  have hN : 1 ≤ q.num.natAbs := by
    have : q.num ≠ 0 := Rat.num_ne_zero.2 hq
    omega
  have hD : 1 ≤ q.den := q.den_pos
  obtain ⟨a1, a2⟩ := halvings_spec _ _ hN (le_refl _)
  obtain ⟨b1, b2⟩ := halvings_spec _ _ hD (le_refl _)
  rw [abs_eq_natAbs_div]
  have hDq : (0 : ℚ) < q.den := by exact_mod_cast q.den_pos
  unfold binade
  simp only
  generalize q.num.natAbs = N at *
  generalize q.den = D at *
  generalize halvings N N = a at *
  generalize halvings D D = b at *
  have key : ∀ z : Int, z = (a : Int) - b → (2 : ℚ) ^ z = (2 : ℚ) ^ a / (2 : ℚ) ^ b := by
    intro z hz
    rw [hz, zpow_sub₀ (by norm_num), zpow_natCast, zpow_natCast]
  split_ifs with hc
  · -- D * 2^(a-b)+ ≤ N * 2^(b-a)+
    rw [le_div_iff₀ hDq]
    by_cases hab : b ≤ a
    · have e1 : ((a : Int) - b).toNat = a - b := by omega
      have e2 : ((b : Int) - a).toNat = 0 := by omega
      rw [e1, e2, pow_zero, mul_one] at hc
      have : ((a : Int) - b) = ((a - b : Nat) : Int) := by omega
      rw [this, zpow_natCast, mul_comm]
      exact_mod_cast hc
    · have e1 : ((a : Int) - b).toNat = 0 := by omega
      have e2 : ((b : Int) - a).toNat = b - a := by omega
      rw [e1, e2, pow_zero, mul_one] at hc
      have : ((a : Int) - b) = -((b - a : Nat) : Int) := by omega
      rw [this, zpow_neg, zpow_natCast, inv_mul_le_iff₀ (by positivity)]
      have hc' : (D : ℚ) ≤ (N : ℚ) * 2 ^ (b - a) := by exact_mod_cast hc
      linarith [mul_comm (N : ℚ) (2 ^ (b - a))]
  · rw [zpow_sub₀ (by norm_num), key _ rfl, zpow_one, div_div, div_le_div_iff₀ (by positivity) hDq]
    have h1 : ((2 : ℚ) ^ a) ≤ N := by exact_mod_cast a1
    have h2 : (D : ℚ) ≤ 2 ^ b * 2 := by
      have : D ≤ 2 ^ (b + 1) := le_of_lt b2
      rw [pow_succ] at this
      exact_mod_cast this
    have h3 : (0 : ℚ) ≤ 2 ^ a := by positivity
    have h4 : (0 : ℚ) ≤ D := le_of_lt hDq
    nlinarith

theorem two_zpow_split (e : Int) :
    (2 : ℚ) ^ e = ((2 ^ e.toNat : Nat) : ℚ) / ((2 ^ (-e).toNat : Nat) : ℚ) := by
  by_cases h : 0 ≤ e
  · obtain ⟨n, rfl⟩ := Int.eq_ofNat_of_zero_le h
    have : (-(n : Int)).toNat = 0 := by omega
    simp [this]
  · obtain ⟨n, hn⟩ := Int.eq_ofNat_of_zero_le (show 0 ≤ -e by omega)
    have he : e = -(n : Int) := by omega
    have h2 : (-(n : Int)).toNat = 0 := by omega
    subst he
    simp [h2, zpow_neg]

/-- Rounding to `float` does not go beyond a power of two (which is a `float`). -/
theorem toFloat_abs_le {q : ℚ} {k : Nat} (h : |q| ≤ 2 ^ k) : |toFloat q| ≤ 2 ^ k := by
  by_cases hq : q = 0
  · subst hq
    rw [toFloat_zero, abs_zero]
    positivity
  have hb : binade q ≤ k := by
    have := (binade_le hq).trans h
    rw [← zpow_natCast] at this
    exact (zpow_le_zpow_iff_right₀ (by norm_num : (1 : ℚ) < 2)).1 this
  unfold toFloat
  rw [if_neg hq]
  simp only
  generalize he : max (binade q) (-126) - 23 = e
  have hek : e ≤ k := by
    have : max (binade q) (-126) ≤ k := max_le hb (by omega)
    omega
  have hPp : (0 : ℚ) < ((2 ^ e.toNat : Nat) : ℚ) := by positivity
  have hPm : (0 : ℚ) < ((2 ^ (-e).toNat : Nat) : ℚ) := by positivity
  have hP := two_zpow_split e
  have hM : (((2 : Int) ^ ((k : Int) - e).toNat : Int) : ℚ) * ((2 ^ e.toNat : Nat) : ℚ)
      = 2 ^ k * ((2 ^ (-e).toNat : Nat) : ℚ) := by
    have h1 : (((2 : Int) ^ ((k : Int) - e).toNat : Int) : ℚ) = (2 : ℚ) ^ ((k : Int) - e) := by
      have : ((k : Int) - e) = (((k : Int) - e).toNat : Int) := by omega
      conv_rhs => rw [this, zpow_natCast]
      push_cast
      rfl
    rw [h1, zpow_sub₀ (by norm_num), zpow_natCast, hP]
    field_simp
  have qle := (abs_le.1 h)
  have hden : (0 : ℚ) < q.den := by exact_mod_cast q.den_pos
  have hnum : (q.num : ℚ) = q * q.den := by
    have := Rat.num_div_den q
    field_simp at this ⊢
  have hd : 0 < q.den * 2 ^ e.toNat := by positivity
  have up : q.num * 2 ^ (-e).toNat ≤ (2 : Int) ^ ((k : Int) - e).toNat * ((q.den * 2 ^ e.toNat : Nat) : Int) := by
    have : ((q.num * 2 ^ (-e).toNat : Int) : ℚ) ≤
        (((2 : Int) ^ ((k : Int) - e).toNat * ((q.den * 2 ^ e.toNat : Nat) : Int) : Int) : ℚ) := by
      push_cast
      push_cast at hM hPp hPm
      rw [hnum]
      have e1 : (2 : ℚ) ^ ((k : Int) - e).toNat * ((q.den : ℚ) * 2 ^ e.toNat)
          = (q.den : ℚ) * (2 ^ k * 2 ^ (-e).toNat) := by rw [← hM]; ring
      rw [e1]
      have := mul_le_mul_of_nonneg_right qle.2 (le_of_lt (mul_pos hden hPm))
      nlinarith
    exact_mod_cast this
  have lo : -(2 : Int) ^ ((k : Int) - e).toNat * ((q.den * 2 ^ e.toNat : Nat) : Int) ≤ q.num * 2 ^ (-e).toNat := by
    have : (((-(2 : Int) ^ ((k : Int) - e).toNat) * ((q.den * 2 ^ e.toNat : Nat) : Int) : Int) : ℚ)
        ≤ ((q.num * 2 ^ (-e).toNat : Int) : ℚ) := by
      push_cast
      push_cast at hM hPp hPm
      rw [hnum]
      have e1 : -(2 : ℚ) ^ ((k : Int) - e).toNat * ((q.den : ℚ) * 2 ^ e.toNat)
          = -((q.den : ℚ) * (2 ^ k * 2 ^ (-e).toNat)) := by rw [← hM]; ring
      rw [e1]
      have := mul_le_mul_of_nonneg_right qle.1 (le_of_lt (mul_pos hden hPm))
      nlinarith
    exact_mod_cast this
  have m1 := roundEven_le hd up
  have m2 := le_roundEven hd lo
  generalize roundEven (q.num * 2 ^ (-e).toNat) (q.den * 2 ^ e.toNat) = m at m1 m2
  rw [Rat.mkRat_eq_div, abs_le]
  have m1' : (m : ℚ) ≤ (((2 : Int) ^ ((k : Int) - e).toNat : Int) : ℚ) := by exact_mod_cast m1
  have m2' : -(((2 : Int) ^ ((k : Int) - e).toNat : Int) : ℚ) ≤ (m : ℚ) := by exact_mod_cast m2
  push_cast at hM hPp hPm m1' m2' ⊢
  constructor
  · rw [le_div_iff₀ hPm]
    have := mul_le_mul_of_nonneg_right m2' (le_of_lt hPp)
    nlinarith
  · rw [div_le_iff₀ hPm]
    have := mul_le_mul_of_nonneg_right m1' (le_of_lt hPp)
    nlinarith

theorem fadd_zero_zero : fadd 0 0 = 0 := by simp [fadd, toFloat_zero]

theorem fsub_zero_zero : fsub 0 0 = 0 := by simp [fsub, toFloat_zero]

theorem fmul_zero (a : ℚ) : fmul a 0 = 0 := by simp [fmul, toFloat_zero]

theorem damping_eq : damping = 4152361 / 4194304 := by decide!

theorem c2_eq : c2 = 1 / 4 := by decide!

/-- The update of a cell at rest among cells at rest is `0`. -/
theorem stencil_zero : stencil 0 0 0 0 0 0 = 0 := by
  simp [stencil, fadd_zero_zero, fsub_zero_zero, fmul_zero]

/-- With all six values at most `2 ^ 100` in absolute value, none of the ten
`float` operations of the update overflows. -/
theorem stencil_noOverflow {here prev up down right left : ℚ}
    (h1 : |here| ≤ 2 ^ 100) (h2 : |prev| ≤ 2 ^ 100) (h3 : |up| ≤ 2 ^ 100)
    (h4 : |down| ≤ 2 ^ 100) (h5 : |right| ≤ 2 ^ 100) (h6 : |left| ≤ 2 ^ 100) :
    NoOverflow here prev up down right left := by
  have big : (2 : ℚ) ^ 104 < 2 ^ 128 - 2 ^ 103 := by norm_num
  have t : ∀ (a b : ℚ) (k : Nat), |a| ≤ 2 ^ k → |b| ≤ 2 ^ k → |a + b| ≤ 2 ^ (k + 1) := by
    intro a b k ha hb
    rw [pow_succ]
    exact (abs_add a b).trans (by linarith)
  have t' : ∀ (a b : ℚ) (k : Nat), |a| ≤ 2 ^ k → |b| ≤ 2 ^ k → |a - b| ≤ 2 ^ (k + 1) := by
    intro a b k ha hb
    rw [pow_succ]
    exact (abs_sub a b).trans (by linarith)
  have w : ∀ (a : ℚ) (j k : Nat), j ≤ k → |a| ≤ 2 ^ j → |a| ≤ 2 ^ k := fun a j k hjk ha =>
    ha.trans (pow_le_pow_right₀ (by norm_num) hjk)
  have f : ∀ (a : ℚ) (k : Nat), k ≤ 104 → |a| ≤ 2 ^ k → Finite32 a := fun a k hk ha =>
    lt_of_le_of_lt (w a k 104 hk ha) big
  have a1 := t up down 100 h3 h4
  have b1 : |fadd up down| ≤ 2 ^ 101 := toFloat_abs_le a1
  have a2 := t (fadd up down) right 101 b1 (w right 100 101 (by norm_num) h5)
  have b2 : |fadd (fadd up down) right| ≤ 2 ^ 102 := toFloat_abs_le a2
  have a3 := t (fadd (fadd up down) right) left 102 b2 (w left 100 102 (by norm_num) h6)
  have b3 : |fadd (fadd (fadd up down) right) left| ≤ 2 ^ 103 := toFloat_abs_le a3
  have a4 : |4 * here| ≤ 2 ^ 102 := by
    rw [abs_mul, abs_of_pos (by norm_num : (0 : ℚ) < 4)]
    calc 4 * |here| ≤ 4 * 2 ^ 100 := by linarith
      _ = 2 ^ 102 := by norm_num
  have b4 : |fmul 4 here| ≤ 2 ^ 102 := toFloat_abs_le a4
  have a5 := t' _ _ 103 b3 (w _ 102 103 (by norm_num) b4)
  have b5 : |fsub (fadd (fadd (fadd up down) right) left) (fmul 4 here)| ≤ 2 ^ 104 :=
    toFloat_abs_le a5
  have a6 : |2 * here| ≤ 2 ^ 101 := by
    rw [abs_mul, abs_of_pos (by norm_num : (0 : ℚ) < 2)]
    calc 2 * |here| ≤ 2 * 2 ^ 100 := by linarith
      _ = 2 ^ 101 := by norm_num
  have b6 : |fmul 2 here| ≤ 2 ^ 101 := toFloat_abs_le a6
  have a7 := t' _ _ 101 b6 (w prev 100 101 (by norm_num) h2)
  have b7 : |fsub (fmul 2 here) prev| ≤ 2 ^ 102 := toFloat_abs_le a7
  have a8 : |c2 * fsub (fadd (fadd (fadd up down) right) left) (fmul 4 here)| ≤ 2 ^ 102 := by
    rw [c2_eq, abs_mul, abs_of_pos (by norm_num : (0 : ℚ) < 1 / 4)]
    calc 1 / 4 * |fsub (fadd (fadd (fadd up down) right) left) (fmul 4 here)|
        ≤ 1 / 4 * 2 ^ 104 := by linarith
      _ = 2 ^ 102 := by norm_num
  have b8 : |fmul c2 (fsub (fadd (fadd (fadd up down) right) left) (fmul 4 here))| ≤ 2 ^ 102 :=
    toFloat_abs_le a8
  have a9 := t _ _ 102 b7 b8
  have b9 : |fadd (fsub (fmul 2 here) prev)
      (fmul c2 (fsub (fadd (fadd (fadd up down) right) left) (fmul 4 here)))| ≤ 2 ^ 103 :=
    toFloat_abs_le a9
  have a10 : |damping * fadd (fsub (fmul 2 here) prev)
      (fmul c2 (fsub (fadd (fadd (fadd up down) right) left) (fmul 4 here)))| ≤ 2 ^ 103 := by
    rw [damping_eq, abs_mul, abs_of_pos (by norm_num : (0 : ℚ) < 4152361 / 4194304)]
    have := abs_nonneg (fadd (fsub (fmul 2 here) prev)
      (fmul c2 (fsub (fadd (fadd (fadd up down) right) left) (fmul 4 here))))
    nlinarith
  exact ⟨f _ 101 (by norm_num) a1, f _ 102 (by norm_num) a2, f _ 103 (by norm_num) a3,
    f _ 102 (by norm_num) a4, f _ 104 (by norm_num) a5, f _ 101 (by norm_num) a6,
    f _ 102 (by norm_num) a7, f _ 102 (by norm_num) a8, f _ 103 (by norm_num) a9,
    f _ 103 (by norm_num) a10⟩

/-- The `float` sum does not depend on the order of its two operands. -/
theorem fadd_comm (a b : ℚ) : fadd a b = fadd b a := by
  unfold fadd; rw [add_comm]

/-! ## The grid pass and the sub-step -/

theorem newValue_congr {s t : Membrane} (hc : t.current = s.current)
    (hp : t.previous = s.previous) (y x : Int) : newValue t y x = newValue s y x := by
  unfold newValue; rw [hc, hp]

/-- One execution of the inner loop body at an interior cell: it succeeds and
stores `newValue` in `next[y][x]`, touching nothing else. -/
theorem updateCell_spec {s : Membrane} (hs : s.Sized) {y x : Int}
    (hy : 1 ≤ y ∧ y < gridSize - 1) (hx : 1 ≤ x ∧ x < gridSize - 1) :
    ∃ t, updateCell y x s = some t ∧ t.previous = s.previous ∧ t.current = s.current ∧
      t.next.Sized ∧ ∀ y' x' : Int, t.next.read y' x' =
        if y' = y ∧ x' = x then some (newValue s y x) else s.next.read y' x' := by
  have hy0 : 0 ≤ y ∧ y < gridSize := by constructor <;> omega
  have hx0 : 0 ≤ x ∧ x < gridSize := by constructor <;> omega
  obtain ⟨nxt, hw, hsz⟩ := hs.2.2.write hy0 hx0 (newValue s y x)
  refine ⟨{ s with next := nxt }, ?_, rfl, rfl, hsz, Grid.read_write hw⟩
  unfold updateCell
  by_cases hin : isInsideCircle x y center center radius = true
  · have h1 := hs.2.1.read_some (y := y + 1) (x := x) (by constructor <;> omega) hx0
    have h2 := hs.2.1.read_some (y := y - 1) (x := x) (by constructor <;> omega) hx0
    have h3 := hs.2.1.read_some (y := y) (x := x + 1) hy0 (by constructor <;> omega)
    have h4 := hs.2.1.read_some (y := y) (x := x - 1) hy0 (by constructor <;> omega)
    have h5 := hs.2.1.read_some hy0 hx0
    have h6 := hs.1.read_some hy0 hx0
    have hv : newValue s y x = fmul damping
        (fadd (fsub (fmul 2 (s.current.cell y x)) (s.previous.cell y x))
          (fmul c2 (fsub
            (fadd (fadd (fadd (s.current.cell (y + 1) x) (s.current.cell (y - 1) x))
              (s.current.cell y (x + 1))) (s.current.cell y (x - 1)))
            (fmul 4 (s.current.cell y x))))) := by
      unfold newValue stencil; rw [if_pos hin]
    rw [hv] at hw
    simp only [hin, Bool.not_true, Bool.false_eq_true, if_false, h1, h2, h3, h4, h5, h6,
      Option.some_bind, hw]
  · have hv : newValue s y x = 0 := by unfold newValue; rw [if_neg hin]
    rw [hv] at hw
    simp only [Bool.not_eq_true] at hin
    simp only [hin, Bool.not_false, if_true, hw, Option.some_bind]

/-- The inner loop over one row `y`. -/
theorem rowPass_spec {s : Membrane} (hs : s.Sized) {y : Int} (hy : 1 ≤ y ∧ y < gridSize - 1) :
    ∃ t, forRange 1 (gridSize - 1) (fun x s2 => updateCell y x s2) s = some t ∧
      t.previous = s.previous ∧ t.current = s.current ∧ t.next.Sized ∧
      ∀ y' x' : Int, t.next.read y' x' =
        if y' = y ∧ (1 ≤ x' ∧ x' < gridSize - 1) then some (newValue s y x')
        else s.next.read y' x' := by
  refine forRange_inv 1 (gridSize - 1) _
    (fun k t => t.previous = s.previous ∧ t.current = s.current ∧ t.next.Sized ∧
      ∀ y' x' : Int, t.next.read y' x' =
        if y' = y ∧ (1 ≤ x' ∧ x' < k) then some (newValue s y x') else s.next.read y' x')
    s (by decide) ⟨rfl, rfl, hs.2.2, ?_⟩ ?_
  · intro y' x'
    rw [if_neg (by omega)]
  · intro j t hj1 hj2 ⟨hp, hc, hn, hr⟩
    have ht : t.Sized := ⟨by rw [hp]; exact hs.1, by rw [hc]; exact hs.2.1, hn⟩
    obtain ⟨u, hu, hup, huc, hun, hur⟩ := updateCell_spec ht hy ⟨hj1, hj2⟩
    refine ⟨u, hu, hup.trans hp, huc.trans hc, hun, ?_⟩
    intro y' x'
    rw [hur, hr, newValue_congr hc hp]
    by_cases h1 : y' = y ∧ x' = j
    · rw [if_pos h1, if_pos ⟨h1.1, by omega⟩, h1.2]
    · rw [if_neg h1]
      by_cases h2 : y' = y ∧ (1 ≤ x' ∧ x' < j)
      · rw [if_pos h2, if_pos ⟨h2.1, by omega⟩]
      · rw [if_neg h2, if_neg (by omega)]

/-- The full-grid pass succeeds on a sized state, leaves `previous` and
`current` alone and rewrites exactly the interior cells of `next`. -/
theorem gridPass_spec {s : Membrane} (hs : s.Sized) :
    ∃ t, gridPass s = some t ∧ t.previous = s.previous ∧ t.current = s.current ∧
      t.next.Sized ∧ ∀ y x : Int, t.next.read y x =
        if interior y x then some (newValue s y x) else s.next.read y x := by
  unfold gridPass interior
  refine forRange_inv 1 (gridSize - 1) _
    (fun k t => t.previous = s.previous ∧ t.current = s.current ∧ t.next.Sized ∧
      ∀ y' x' : Int, t.next.read y' x' =
        if (1 ≤ y' ∧ y' < k) ∧ (1 ≤ x' ∧ x' < gridSize - 1) then some (newValue s y' x')
        else s.next.read y' x')
    s (by decide) ⟨rfl, rfl, hs.2.2, ?_⟩ ?_
  · intro y' x'
    rw [if_neg (by omega)]
  · intro j t hj1 hj2 ⟨hp, hc, hn, hr⟩
    have ht : t.Sized := ⟨by rw [hp]; exact hs.1, by rw [hc]; exact hs.2.1, hn⟩
    obtain ⟨u, hu, hup, huc, hun, hur⟩ := rowPass_spec ht ⟨hj1, hj2⟩
    refine ⟨u, hu, hup.trans hp, huc.trans hc, hun, ?_⟩
    intro y' x'
    rw [hur, hr, newValue_congr hc hp]
    by_cases h1 : y' = j ∧ (1 ≤ x' ∧ x' < gridSize - 1)
    · rw [if_pos h1, if_pos ⟨by omega, h1.2⟩, h1.1]
    · rw [if_neg h1]
      by_cases h2 : (1 ≤ y' ∧ y' < j) ∧ (1 ≤ x' ∧ x' < gridSize - 1)
      · rw [if_pos h2, if_pos ⟨by omega, h2.2⟩]
      · rw [if_neg h2, if_neg (by omega)]

/-- One integration sub-step on a sized state: it succeeds, rotates the
buffers, and the new `current` is the old `next` with every interior cell
overwritten by `newValue`. -/
theorem subStep_spec {s : Membrane} (hs : s.Sized) :
    ∃ t, subStep s = some t ∧ t.Sized ∧ t.previous = s.current ∧ t.next = s.previous ∧
      ∀ y x : Int, t.current.read y x =
        if interior y x then some (newValue s y x) else s.next.read y x := by
  obtain ⟨u, hu, hup, huc, hun, hur⟩ := gridPass_spec hs
  refine ⟨rotate u, by simp [subStep, hu], ⟨?_, ?_, ?_⟩, ?_, ?_, ?_⟩
  · show u.current.Sized
    rw [huc]; exact hs.2.1
  · exact hun
  · show u.previous.Sized
    rw [hup]; exact hs.1
  · exact huc
  · exact hup
  · exact hur

theorem Grid.cell_of_read {g : Grid} {y x : Int} {v : ℚ} (h : g.read y x = some v) :
    g.cell y x = v := by
  unfold Grid.cell; rw [h]; rfl

theorem subStep_cell {s : Membrane} (hs : s.Sized) :
    ∃ t, subStep s = some t ∧ t.Sized ∧ t.previous = s.current ∧ t.next = s.previous ∧
      ∀ y x : Int, t.current.cell y x =
        if interior y x then newValue s y x else s.next.cell y x := by
  obtain ⟨t, h1, h2, h3, h4, h5⟩ := subStep_spec hs
  refine ⟨t, h1, h2, h3, h4, ?_⟩
  intro y x
  unfold Grid.cell
  rw [h5]
  split <;> rfl

theorem center_eq : center = 50 := by decide

theorem radius_eq : radius = 49 := by decide

theorem inside_iff (x y : Int) :
    isInsideCircle x y center center radius = true ↔
      (x - 50) * (x - 50) + (y - 50) * (y - 50) ≤ 2401 := by
  simp [isInsideCircle, center_eq, radius_eq]

theorem interior_iff (y x : Int) : interior y x ↔ (1 ≤ y ∧ y ≤ 98) ∧ (1 ≤ x ∧ x ≤ 98) := by
  unfold interior gridSize; omega

/-! ## Sequences of sub-steps -/

theorem forLoop_subStep (n : Nat) (i : Int) (s : Membrane) :
    forLoop (fun _ s1 => subStep s1) n i s = subSteps n s := by
  induction n generalizing i s with
  | zero => rfl
  | succ n ih =>
    simp only [forLoop, subSteps]
    cases subStep s with
    | none => rfl
    | some t => simp [ih]

/-- The step loop of `timerCallback` is ten sub-steps in sequence. -/
theorem timerCallback_eq (s : Membrane) : timerCallback s = subSteps 10 s :=
  forLoop_subStep 10 0 s

theorem subSteps_succ (n : Nat) (s : Membrane) :
    subSteps (n + 1) s = (subSteps n s).bind subStep := by
  induction n generalizing s with
  | zero => simp [subSteps]
  | succ n ih =>
    rw [subSteps]
    cases h : subStep s with
    | none => simp [subSteps, h]
    | some t => simp only [Option.some_bind, ih t]; simp [subSteps, h]

/-- An indexed family of properties that each sub-step carries one index
further holds after any number of sub-steps. -/
theorem subSteps_inv (P : Nat → Membrane → Prop)
    (hstep : ∀ k s, P k s → ∃ t, subStep s = some t ∧ P (k + 1) t) :
    ∀ (n k : Nat) (s : Membrane), P k s → ∃ t, subSteps n s = some t ∧ P (k + n) t := by
  intro n
  induction n with
  | zero => intro k s h; exact ⟨s, rfl, h⟩
  | succ n ih =>
    intro k s h
    obtain ⟨t, ht, hP⟩ := hstep k s h
    obtain ⟨u, hu, hPu⟩ := ih (k + 1) t hP
    refine ⟨u, by simp [subSteps, ht, hu], ?_⟩
    have : k + (n + 1) = k + 1 + n := by omega
    rw [this]; exact hPu

/-- A property preserved by `mouseDown` and by a sub-step holds in every state
reached by a sequence of calls. -/
theorem run_inv (P : Membrane → Prop)
    (hstep : ∀ s, P s → ∃ t, subStep s = some t ∧ P t)
    (hexc : ∀ s x y, P s → ∃ t, mouseDown s x y = some t ∧ P t) :
    ∀ (cs : List Call) (s : Membrane), P s → ∃ t, run cs s = some t ∧ P t := by
  intro cs
  induction cs with
  | nil => intro s h; exact ⟨s, rfl, h⟩
  | cons c cs ih =>
    intro s h
    cases c with
    | excite x y =>
      obtain ⟨t, ht, hP⟩ := hexc s x y h
      obtain ⟨u, hu, hPu⟩ := ih t hP
      exact ⟨u, by simp [run, ht, hu], hPu⟩
    | advance =>
      obtain ⟨t, ht, hP⟩ := subSteps_inv (fun _ s => P s) (fun _ s hs => hstep s hs) 10 0 s h
      obtain ⟨u, hu, hPu⟩ := ih t hP
      exact ⟨u, by simp [run, timerCallback_eq, ht, hu], hPu⟩

theorem subSteps_sized {s : Membrane} (hs : s.Sized) (n : Nat) :
    ∃ t, subSteps n s = some t ∧ t.Sized := by
  obtain ⟨t, h1, h2⟩ := subSteps_inv (fun _ s => s.Sized)
    (fun _ s hs => by obtain ⟨t, h1, h2, _⟩ := subStep_spec hs; exact ⟨t, h1, h2⟩) n 0 s hs
  exact ⟨t, h1, h2⟩

/-! ## The border ring under the buffer rotation -/

/-- Outside the interior the three buffers are permuted cyclically by each
sub-step, so the border ring returns to its buffer every three sub-steps. -/
theorem subSteps_border {s : Membrane} (hs : s.Sized) (n : Nat) :
    ∃ t, subSteps n s = some t ∧ t.Sized ∧ ∀ y x : Int, ¬ interior y x →
      (n % 3 = 0 → t.previous.read y x = s.previous.read y x ∧
        t.current.read y x = s.current.read y x ∧ t.next.read y x = s.next.read y x) ∧
      (n % 3 = 1 → t.previous.read y x = s.current.read y x ∧
        t.current.read y x = s.next.read y x ∧ t.next.read y x = s.previous.read y x) ∧
      (n % 3 = 2 → t.previous.read y x = s.next.read y x ∧
        t.current.read y x = s.previous.read y x ∧ t.next.read y x = s.current.read y x) := by
  obtain ⟨t, h1, h2⟩ := subSteps_inv
    (fun k t => t.Sized ∧ ∀ y x : Int, ¬ interior y x →
      (k % 3 = 0 → t.previous.read y x = s.previous.read y x ∧
        t.current.read y x = s.current.read y x ∧ t.next.read y x = s.next.read y x) ∧
      (k % 3 = 1 → t.previous.read y x = s.current.read y x ∧
        t.current.read y x = s.next.read y x ∧ t.next.read y x = s.previous.read y x) ∧
      (k % 3 = 2 → t.previous.read y x = s.next.read y x ∧
        t.current.read y x = s.previous.read y x ∧ t.next.read y x = s.current.read y x))
    (fun k t ht => by
      obtain ⟨u, hu, hus, hup, hun, huc⟩ := subStep_spec ht.1
      refine ⟨u, hu, hus, ?_⟩
      intro y x hi
      obtain ⟨a0, a1, a2⟩ := ht.2 y x hi
      have hc : u.current.read y x = t.next.read y x := by rw [huc, if_neg hi]
      rw [hup, hun, hc]
      refine ⟨fun hk => ?_, fun hk => ?_, fun hk => ?_⟩
      · obtain ⟨b1, b2, b3⟩ := a2 (by omega)
        exact ⟨b2, b3, b1⟩
      · obtain ⟨b1, b2, b3⟩ := a0 (by omega)
        exact ⟨b2, b3, b1⟩
      · obtain ⟨b1, b2, b3⟩ := a1 (by omega)
        exact ⟨b2, b3, b1⟩)
    n 0 s ⟨hs, fun y x _ => ⟨fun _ => ⟨rfl, rfl, rfl⟩, fun h => by omega, fun h => by omega⟩⟩
  rw [Nat.zero_add] at h2
  exact ⟨t, h1, h2⟩

theorem replicate_read (n m i j : Nat) :
    Grid.read (List.replicate n (List.replicate m (0 : ℚ))) (i : Int) (j : Int) =
      if i < n ∧ j < m then some 0 else none := by
  rw [Grid.read_of_nat, List.getElem?_replicate]
  by_cases hi : i < n
  · by_cases hj : j < m
    · simp [hi, hj, List.getElem?_replicate]
    · simp [hi, hj, List.getElem?_replicate]
  · simp [hi]

theorem zero_read {y x : Int} (hy : 0 ≤ y ∧ y < gridSize) (hx : 0 ≤ x ∧ x < gridSize) :
    Grid.read (List.replicate 100 (List.replicate 100 (0 : ℚ))) y x = some 0 := by
  obtain ⟨i, rfl⟩ := Int.eq_ofNat_of_zero_le hy.1
  obtain ⟨j, rfl⟩ := Int.eq_ofNat_of_zero_le hx.1
  have hi : i < 100 := by have := hy.2; unfold gridSize at this; omega
  have hj : j < 100 := by have := hx.2; unfold gridSize at this; omega
  rw [replicate_read, if_pos ⟨hi, hj⟩]

theorem zero_cell (y x : Int) :
    Grid.cell (List.replicate 100 (List.replicate 100 (0 : ℚ))) y x = 0 := by
  unfold Grid.cell
  by_cases hneg : y < 0 ∨ x < 0
  · rw [Grid.read_neg _ _ _ hneg]; rfl
  · obtain ⟨i, rfl⟩ := Int.eq_ofNat_of_zero_le (show 0 ≤ y by omega)
    obtain ⟨j, rfl⟩ := Int.eq_ofNat_of_zero_le (show 0 ≤ x by omega)
    rw [replicate_read]
    split <;> rfl

theorem zero_sized : Grid.Sized (List.replicate 100 (List.replicate 100 (0 : ℚ))) := by
  refine ⟨by simp [gridSize_toNat], ?_⟩
  intro row hrow
  rw [List.eq_of_mem_replicate hrow]
  simp [gridSize_toNat]

theorem init_sized : init.Sized := ⟨zero_sized, zero_sized, zero_sized⟩

theorem newValue_init (y x : Int) : newValue init y x = 0 := by
  unfold newValue
  have h : ∀ a b : Int, init.current.cell a b = 0 := zero_cell
  have h' : ∀ a b : Int, init.previous.cell a b = 0 := zero_cell
  simp [h, h', stencil_zero]

/-- The constructed state is a fixed point of the integration sub-step. -/
theorem subStep_init : subStep init = some init := by
  obtain ⟨t, h1, h2, h3, h4, h5⟩ := subStep_spec init_sized
  rw [h1]
  have hc : t.current = init.current := by
    apply Grid.Sized.ext h2.2.1 init_sized.2.1
    intro y x hy1 hy2 hx1 hx2
    rw [h5, newValue_init]
    have hz : init.current.read y x = some 0 := zero_read ⟨hy1, hy2⟩ ⟨hx1, hx2⟩
    have hz' : init.next.read y x = some 0 := zero_read ⟨hy1, hy2⟩ ⟨hx1, hx2⟩
    rw [hz, hz']
    split <;> rfl
  cases t
  simp only at h3 h4 hc
  subst h3 h4 hc
  rfl

theorem subSteps_init (n : Nat) : subSteps n init = some init := by
  induction n with
  | zero => rfl
  | succ n ih => simp [subSteps, subStep_init, ih]

theorem run_advance_init (n : Nat) : run (List.replicate n Call.advance) init = some init := by
  induction n with
  | zero => rfl
  | succ n ih =>
    simp [List.replicate_succ, run, timerCallback_eq, subSteps_init, ih]

/-! ## The impulse of `mouseDown` -/

theorem mouseDown_guard (x y : Int) :
    (decide (x > 1) && decide (x < gridSize - 1) && decide (y > 1) && decide (y < gridSize - 1)
      && isInsideCircle x y center center radius) = true ↔ Accepted x y := by
  simp only [Bool.and_eq_true, decide_eq_true_eq, inside_iff, Accepted, gridSize]
  constructor
  · rintro ⟨⟨⟨⟨h1, h2⟩, h3⟩, h4⟩, h5⟩
    exact ⟨h1, by omega, h3, by omega, h5⟩
  · rintro ⟨h1, h2, h3, h4, h5⟩
    exact ⟨⟨⟨⟨h1, by omega⟩, h3⟩, by omega⟩, h5⟩

theorem mouseDown_reject (s : Membrane) {x y : Int} (h : ¬ Accepted x y) :
    mouseDown s x y = some s := by
  unfold mouseDown
  rw [if_neg (fun hg => h ((mouseDown_guard x y).1 hg))]

theorem mouseDown_accept {s : Membrane} (hs : s.Sized) {x y : Int} (h : Accepted x y) :
    ∃ t, mouseDown s x y = some t ∧ t.Sized ∧ t.next = s.next ∧
      (∀ y' x' : Int, t.current.read y' x' =
        if y' = y ∧ x' = x then some 1 else s.current.read y' x') ∧
      (∀ y' x' : Int, t.previous.read y' x' =
        if y' = y ∧ x' = x then some (1 / 2) else s.previous.read y' x') := by
  have hy : 0 ≤ y ∧ y < gridSize := by unfold gridSize; unfold Accepted at h; omega
  have hx : 0 ≤ x ∧ x < gridSize := by unfold gridSize; unfold Accepted at h; omega
  obtain ⟨cur, hc, hcs⟩ := hs.2.1.write hy hx 1
  obtain ⟨prev, hp, hps⟩ := hs.1.write hy hx (1 / 2)
  refine ⟨{ s with current := cur, previous := prev }, ?_, ⟨hps, hcs, hs.2.2⟩, rfl,
    Grid.read_write hc, Grid.read_write hp⟩
  unfold mouseDown
  rw [if_pos ((mouseDown_guard x y).2 h), hc, hp]
  rfl

theorem mouseDown_sized {s : Membrane} (hs : s.Sized) (x y : Int) :
    ∃ t, mouseDown s x y = some t ∧ t.Sized := by
  by_cases h : Accepted x y
  · obtain ⟨t, h1, h2, _⟩ := mouseDown_accept hs h
    exact ⟨t, h1, h2⟩
  · exact ⟨s, mouseDown_reject s h, hs⟩

theorem Grid.write_idem {g g' : Grid} {y x : Int} {v : ℚ} (h : g.write y x v = some g') :
    g'.write y x v = some g' := by
  by_cases hneg : y < 0 ∨ x < 0
  · rw [Grid.write_neg g y x v hneg] at h; cases h
  obtain ⟨i, rfl⟩ := Int.eq_ofNat_of_zero_le (show 0 ≤ y by omega)
  obtain ⟨j, rfl⟩ := Int.eq_ofNat_of_zero_le (show 0 ≤ x by omega)
  rw [Grid.write_of_nat] at h ⊢
  cases hrow : g[i]? with
  | none => rw [hrow] at h; cases h
  | some row =>
    rw [hrow] at h
    by_cases hj : j < row.length
    · simp only [Option.some_bind, if_pos hj, Option.some.injEq] at h
      subst h
      have hi : i < g.length := by
        by_contra hc
        rw [List.getElem?_eq_none (by omega)] at hrow; cases hrow
      rw [List.getElem?_set]
      simp [hi, hj, List.set_set]
    · simp [hj] at h

/-- Applying the impulse twice is the same as applying it once. -/
theorem mouseDown_twice (s : Membrane) (x y : Int) :
    (mouseDown s x y).bind (fun t => mouseDown t x y) = mouseDown s x y := by
  by_cases h : Accepted x y
  · have hg := (mouseDown_guard x y).2 h
    unfold mouseDown
    rw [if_pos hg]
    cases hc : s.current.write y x 1 with
    | none => rfl
    | some cur =>
      cases hp : s.previous.write y x (1 / 2) with
      | none => rfl
      | some prev =>
        simp only [Option.some_bind, if_pos hg, Grid.write_idem hc, Grid.write_idem hp]
  · rw [mouseDown_reject s h]
    simp [mouseDown_reject s h]

/-! ## Cells that stay at rest -/

theorem init_quiet : Quiet init :=
  ⟨init_sized, fun y x _ => ⟨zero_cell y x, zero_cell y x, zero_cell y x⟩⟩

theorem subStep_quiet {s : Membrane} (h : Quiet s) : ∃ t, subStep s = some t ∧ Quiet t := by
  obtain ⟨t, h1, h2, h3, h4, h5⟩ := subStep_cell h.1
  refine ⟨t, h1, h2, ?_⟩
  intro y x hyx
  obtain ⟨q1, q2, q3⟩ := h.2 y x hyx
  refine ⟨by rw [h3]; exact q2, ?_, by rw [h4]; exact q1⟩
  rw [h5]
  by_cases hi : interior y x
  · rw [if_pos hi]
    rcases hyx with hyx | hyx
    · exact absurd hi hyx
    · unfold newValue; rw [hyx]; simp
  · rw [if_neg hi]; exact q3

theorem mouseDown_quiet {s : Membrane} (h : Quiet s) (x y : Int) :
    ∃ t, mouseDown s x y = some t ∧ Quiet t := by
  by_cases ha : Accepted x y
  · obtain ⟨t, h1, h2, h3, h4, h5⟩ := mouseDown_accept h.1 ha
    refine ⟨t, h1, h2, ?_⟩
    intro y' x' hyx
    obtain ⟨q1, q2, q3⟩ := h.2 y' x' hyx
    have hne : ¬ (y' = y ∧ x' = x) := by
      rintro ⟨rfl, rfl⟩
      rcases hyx with hyx | hyx
      · apply hyx; rw [interior_iff]; unfold Accepted at ha; omega
      · have := (inside_iff x' y').2 ha.2.2.2.2
        rw [this] at hyx; cases hyx
    refine ⟨?_, ?_, by rw [h3]; exact q3⟩
    · unfold Grid.cell; rw [h5, if_neg hne]; exact q1
    · unfold Grid.cell; rw [h4, if_neg hne]; exact q2
  · exact ⟨s, mouseDown_reject s ha, h⟩

theorem run_quiet (cs : List Call) : ∃ t, run cs init = some t ∧ Quiet t :=
  run_inv Quiet (fun _ h => subStep_quiet h) (fun _ x y h => mouseDown_quiet h x y) cs init
    init_quiet

/-! ## The renderer loop -/

theorem paintReads_some {s : Membrane} (hs : s.Sized) : ∃ l, paintReads s = some l := by
  unfold paintReads
  obtain ⟨l, hl, _⟩ := forRange_inv 0 gridSize
    (fun y acc => forRange 0 gridSize (fun x acc1 =>
      if (!isInsideCircle x y center center radius) = true then some acc1
      else (s.current.read y x).bind fun value => some (acc1 ++ [value])) acc)
    (fun _ _ => True) [] (by decide) trivial
    (fun y acc hy1 hy2 _ => by
      obtain ⟨l, hl, _⟩ := forRange_inv 0 gridSize
        (fun x acc1 =>
          if (!isInsideCircle x y center center radius) = true then some acc1
          else (s.current.read y x).bind fun value => some (acc1 ++ [value]))
        (fun _ _ => True) acc (by decide) trivial
        (fun x acc1 hx1 hx2 _ => by
          by_cases hc : (!isInsideCircle x y center center radius) = true
          · exact ⟨acc1, by simp only [if_pos hc], trivial⟩
          · simp only [if_neg hc, hs.2.1.read_some ⟨hy1, hy2⟩ ⟨hx1, hx2⟩]
            exact ⟨_, rfl, trivial⟩)
      exact ⟨l, hl, trivial⟩)
  exact ⟨l, hl⟩

theorem Grid.Sized.read_isSome_iff {g : Grid} (hg : g.Sized) (y x : Int) :
    (g.read y x).isSome = true ↔ (0 ≤ y ∧ y < 100) ∧ (0 ≤ x ∧ x < 100) := by
  constructor
  · intro h
    by_cases hneg : y < 0 ∨ x < 0
    · rw [Grid.read_neg g y x hneg] at h; cases h
    obtain ⟨i, rfl⟩ := Int.eq_ofNat_of_zero_le (show 0 ≤ y by omega)
    obtain ⟨j, rfl⟩ := Int.eq_ofNat_of_zero_le (show 0 ≤ x by omega)
    rw [Grid.read_of_nat] at h
    have hi : i < g.length := by
      by_contra hc
      rw [List.getElem?_eq_none (by omega)] at h; cases h
    rw [List.getElem?_eq_getElem hi] at h
    simp only [Option.some_bind] at h
    have hj : j < (g[i]).length := by
      by_contra hc
      rw [List.getElem?_eq_none (by omega)] at h; cases h
    rw [hg.2 _ (List.getElem_mem hi), gridSize_toNat] at hj
    rw [hg.1, gridSize_toNat] at hi
    omega
  · rintro ⟨hy, hx⟩
    rw [hg.read_some (by unfold gridSize; omega) (by unfold gridSize; omega)]
    rfl

/-! ## Finite propagation speed -/

theorem newValue_far {x0 y0 : Int} {n : Nat} {s : Membrane} (h : Front x0 y0 n s) {y x : Int}
    (hd : n + 1 < manhattan x y x0 y0) : newValue s y x = 0 := by
  unfold manhattan at hd
  have f : ∀ b a : Int, n < (a - x0).natAbs + (b - y0).natAbs →
      s.current.cell b a = 0 ∧ s.previous.cell b a = 0 := h
  unfold newValue
  rw [(f y x (by omega)).1, (f y x (by omega)).2, (f (y + 1) x (by omega)).1,
    (f (y - 1) x (by omega)).1, (f y (x + 1) (by omega)).1, (f y (x - 1) (by omega)).1]
  simp [stencil_zero]

theorem subStep_front {x0 y0 : Int} {n : Nat} {s : Membrane} (hq : Quiet s)
    (h : Front x0 y0 n s) {t : Membrane} (ht : subStep s = some t) : Front x0 y0 (n + 1) t := by
  obtain ⟨t', h1, _, h3, _, h5⟩ := subStep_cell hq.1
  rw [ht] at h1
  cases h1
  intro y x hd
  refine ⟨?_, ?_⟩
  · rw [h5]
    by_cases hi : interior y x
    · rw [if_pos hi]; exact newValue_far h hd
    · rw [if_neg hi]; exact (hq.2 y x (Or.inl hi)).2.2
  · rw [h3]; exact (h y x (by omega)).1

/-! ## Symmetries of the update -/

theorem inside_swap (x y : Int) :
    isInsideCircle x y center center radius = isInsideCircle y x center center radius := by
  unfold isInsideCircle
  simp only [add_comm]

theorem inside_mirror (x y : Int) :
    isInsideCircle x (100 - y) center center radius = isInsideCircle x y center center radius := by
  unfold isInsideCircle
  rw [center_eq]
  have : (100 - y - 50) * (100 - y - 50) = (y - 50) * (y - 50) := by ring
  simp only [this]

/-- Exchanging the two vertical neighbours does not change the update: they
are the two operands of the first `float` sum of source line 84. -/
theorem stencil_updown (here prev up down right left : ℚ) :
    stencil here prev up down right left = stencil here prev down up right left := by
  unfold stencil
  rw [fadd_comm up down]

theorem newValue_mirror {s : Membrane} (h : Mirrored s) (y x : Int) (h2 : 2 ≤ y) (h98 : y ≤ 98) :
    newValue s y x = newValue s (100 - y) x := by
  unfold newValue
  have e1 : (100 - y + 1 : Int) = 100 - (y - 1) := by ring
  have e2 : (100 - y - 1 : Int) = 100 - (y + 1) := by ring
  rw [inside_mirror x y, e1, e2, ← (h y x (by omega) (by omega)).1,
    ← (h y x (by omega) (by omega)).2, ← (h (y + 1) x (by omega) (by omega)).1,
    ← (h (y - 1) x (by omega) (by omega)).1, ← (h y (x + 1) (by omega) (by omega)).1,
    ← (h y (x - 1) (by omega) (by omega)).1]
  rw [stencil_updown]

/-- The mirror symmetry survives a sub-step as long as the disturbance has not
yet reached row `1`, whose mirror image, row `99`, is never updated. -/
theorem subStep_mirrored {n : Nat} {s : Membrane} (hq : Quiet s) (hf : Front 50 50 n s)
    (hn : n ≤ 47) (h : Mirrored s) {t : Membrane} (ht : subStep s = some t) : Mirrored t := by
  obtain ⟨t', h1, _, h3, _, h5⟩ := subStep_cell hq.1
  rw [ht] at h1
  cases h1
  intro y x hy1 hy2
  refine ⟨?_, by rw [h3]; exact (h y x hy1 hy2).1⟩
  rw [h5, h5]
  by_cases hx : 1 ≤ x ∧ x ≤ 98
  · by_cases hy : 2 ≤ y ∧ y ≤ 98
    · rw [if_pos ((interior_iff y x).2 ⟨by omega, hx⟩),
        if_pos ((interior_iff (100 - y) x).2 ⟨by omega, hx⟩)]
      exact newValue_mirror h y x hy.1 hy.2
    · have hedge : y = 1 ∨ y = 99 := by omega
      rcases hedge with rfl | rfl
      · rw [if_pos ((interior_iff 1 x).2 ⟨by omega, hx⟩),
          if_neg (fun hc => by rw [interior_iff] at hc; omega)]
        rw [newValue_far hf (by unfold manhattan; omega)]
        exact ((hq.2 (100 - 1) x (Or.inl (fun hc => by rw [interior_iff] at hc; omega))).2.2).symm
      · rw [if_neg (fun hc => by rw [interior_iff] at hc; omega),
          if_pos ((interior_iff (100 - 99) x).2 ⟨by omega, hx⟩)]
        rw [newValue_far hf (by unfold manhattan; omega)]
        exact (hq.2 99 x (Or.inl (fun hc => by rw [interior_iff] at hc; omega))).2.2
  · rw [if_neg (fun hc => by rw [interior_iff] at hc; omega),
      if_neg (fun hc => by rw [interior_iff] at hc; omega)]
    rw [(hq.2 y x (Or.inl (fun hc => by rw [interior_iff] at hc; omega))).2.2,
      (hq.2 (100 - y) x (Or.inl (fun hc => by rw [interior_iff] at hc; omega))).2.2]

/-! ## The response to a single impulse -/

theorem accepted_centre : Accepted 50 50 := by unfold Accepted; decide

/-- The state right after an accepted impulse on the constructed state. -/
theorem impulse_cells {x0 y0 : Int} (h : Accepted x0 y0) :
    ∃ e, mouseDown init x0 y0 = some e ∧ Quiet e ∧
      (∀ y x : Int, e.current.cell y x = if y = y0 ∧ x = x0 then 1 else 0) ∧
      (∀ y x : Int, e.previous.cell y x = if y = y0 ∧ x = x0 then 1 / 2 else 0) ∧
      ∀ y x : Int, e.next.cell y x = 0 := by
  obtain ⟨e, h1, _, h3, h4, h5⟩ := mouseDown_accept init_sized h
  obtain ⟨e', h1', hq⟩ := mouseDown_quiet init_quiet x0 y0
  rw [h1] at h1'
  cases h1'
  refine ⟨e, h1, hq, ?_, ?_, ?_⟩
  · intro y x
    have hz : init.current.cell y x = 0 := zero_cell y x
    unfold Grid.cell at hz ⊢
    rw [h4]
    split
    · rfl
    · exact hz
  · intro y x
    have hz : init.previous.cell y x = 0 := zero_cell y x
    unfold Grid.cell at hz ⊢
    rw [h5]
    split
    · rfl
    · exact hz
  · intro y x
    rw [h3]; exact zero_cell y x

theorem impulse_front {x0 y0 : Int} {e : Membrane}
    (hc : ∀ y x : Int, e.current.cell y x = if y = y0 ∧ x = x0 then 1 else 0)
    (hp : ∀ y x : Int, e.previous.cell y x = if y = y0 ∧ x = x0 then 1 / 2 else 0) :
    Front x0 y0 0 e := by
  intro y x hd
  unfold manhattan at hd
  have hne : ¬ (y = y0 ∧ x = x0) := by omega
  rw [hc, hp, if_neg hne, if_neg hne]
  exact ⟨rfl, rfl⟩

/-- The cells of a tabulated 11 x 11 window, `0` outside it. -/
theorem window_cell (f : Nat → Nat → ℚ) (a b : Int) :
    Grid.cell ((List.range 11).map fun i => (List.range 11).map fun j => f i j) a b =
      if (0 ≤ a ∧ a ≤ 10) ∧ (0 ≤ b ∧ b ≤ 10) then f a.toNat b.toNat else 0 := by
  by_cases hneg : a < 0 ∨ b < 0
  · unfold Grid.cell
    rw [Grid.read_neg _ a b hneg, if_neg (by omega)]
    rfl
  obtain ⟨i, rfl⟩ := Int.eq_ofNat_of_zero_le (show 0 ≤ a by omega)
  obtain ⟨j, rfl⟩ := Int.eq_ofNat_of_zero_le (show 0 ≤ b by omega)
  unfold Grid.cell
  rw [tabulate_read 11 f i j]
  by_cases h : i < 11 ∧ j < 11
  · rw [if_pos h, if_pos (by omega)]
    rfl
  · rw [if_neg h, if_neg (by omega)]
    rfl

theorem windowStep_cell (w : Grid × Grid) (a b : Int) :
    (windowStep w).1.cell a b =
      if (0 ≤ a ∧ a ≤ 10) ∧ (0 ≤ b ∧ b ≤ 10) then
        stencil (w.1.cell a b) (w.2.cell a b) (w.1.cell (a + 1) b) (w.1.cell (a - 1) b)
          (w.1.cell a (b + 1)) (w.1.cell a (b - 1))
      else 0 := by
  have h := window_cell (fun i j =>
    stencil (w.1.cell (Int.ofNat i) (Int.ofNat j)) (w.2.cell (Int.ofNat i) (Int.ofNat j))
      (w.1.cell (Int.ofNat i + 1) (Int.ofNat j)) (w.1.cell (Int.ofNat i - 1) (Int.ofNat j))
      (w.1.cell (Int.ofNat i) (Int.ofNat j + 1)) (w.1.cell (Int.ofNat i) (Int.ofNat j - 1))) a b
  unfold windowStep
  rw [h]
  by_cases hin : (0 ≤ a ∧ a ≤ 10) ∧ (0 ≤ b ∧ b ≤ 10)
  · rw [if_pos hin, if_pos hin]
    simp only [Int.ofNat_eq_coe, Int.toNat_of_nonneg hin.1.1, Int.toNat_of_nonneg hin.2.1]
  · rw [if_neg hin, if_neg hin]

theorem window0_cell (a b : Int) :
    window0.1.cell a b = (if a = 5 ∧ b = 5 then 1 else 0) ∧
      window0.2.cell a b = (if a = 5 ∧ b = 5 then 1 / 2 else 0) := by
  unfold window0
  rw [window_cell, window_cell]
  by_cases hin : (0 ≤ a ∧ a ≤ 10) ∧ (0 ≤ b ∧ b ≤ 10)
  · rw [if_pos hin, if_pos hin]
    have e : (a.toNat = 5 ∧ b.toNat = 5) ↔ (a = 5 ∧ b = 5) := by omega
    simp only [e, and_self]
  · rw [if_neg hin, if_neg hin]
    have hne : ¬ (a = 5 ∧ b = 5) := by omega
    rw [if_neg hne, if_neg hne]
    exact ⟨rfl, rfl⟩

theorem response_zero {e : Membrane} (hq : Quiet e)
    (hc : ∀ y x : Int, e.current.cell y x = if y = 50 ∧ x = 50 then 1 else 0)
    (hp : ∀ y x : Int, e.previous.cell y x = if y = 50 ∧ x = 50 then 1 / 2 else 0) :
    Response 0 e := by
  refine ⟨hq, impulse_front hc hp, ?_, ?_, ?_⟩
  · intro _ y x _ _
    rw [hc, hc, hp, hp]
    have : (100 - y = 50 ∧ x = 50) ↔ (y = 50 ∧ x = 50) := by omega
    simp only [this, and_self]
  · intro _ y x
    rw [Function.iterate_zero, id, (window0_cell _ _).1, (window0_cell _ _).2, hc, hp]
    have : (y - 45 = 5 ∧ x - 45 = 5) ↔ (y = 50 ∧ x = 50) := by omega
    simp only [this, and_self]
  · intro _
    rw [hc]
    simp [tip]

/-- The window follows the state for the first five sub-steps after the
impulse, while the disturbance stays inside it. -/
theorem subStep_agrees {k : Nat} {s : Membrane} (hq : Quiet s) (hf : Front 50 50 k s)
    (hk : k ≤ 4) {w : Grid × Grid} (hA : Agrees s w) {t : Membrane} (ht : subStep s = some t) :
    Agrees t (windowStep w) := by
  have hft := subStep_front hq hf ht
  obtain ⟨t', h1, _, h3, _, h5⟩ := subStep_cell hq.1
  rw [ht] at h1
  cases h1
  intro y x
  refine ⟨?_, by rw [h3]; exact (hA y x).1⟩
  rw [windowStep_cell]
  by_cases hwin : (0 ≤ y - 45 ∧ y - 45 ≤ 10) ∧ (0 ≤ x - 45 ∧ x - 45 ≤ 10)
  · have hin : isInsideCircle x y center center radius = true := by
      rw [inside_iff]
      nlinarith [hwin.1.1, hwin.1.2, hwin.2.1, hwin.2.2]
    have e1 : y + 1 - 45 = y - 45 + 1 := by ring
    have e2 : y - 1 - 45 = y - 45 - 1 := by ring
    have e3 : x + 1 - 45 = x - 45 + 1 := by ring
    have e4 : x - 1 - 45 = x - 45 - 1 := by ring
    rw [if_pos hwin, h5, if_pos ((interior_iff y x).2 (by omega))]
    unfold newValue
    rw [if_pos hin, (hA y x).1, (hA y x).2, (hA (y + 1) x).1, (hA (y - 1) x).1,
      (hA y (x + 1)).1, (hA y (x - 1)).1, e1, e2, e3, e4]
  · rw [if_neg hwin]
    exact (hft y x (by unfold manhattan; omega)).1

theorem response_step {k : Nat} {s : Membrane} (h : Response k s) :
    ∃ t, subStep s = some t ∧ Response (k + 1) t := by
  obtain ⟨hq, hf, hM, hA, hW⟩ := h
  obtain ⟨t, ht, hqt⟩ := subStep_quiet hq
  refine ⟨t, ht, hqt, subStep_front hq hf ht, ?_, ?_, ?_⟩
  · intro hk
    exact subStep_mirrored hq hf (by omega) (hM (by omega)) ht
  · intro hk
    rw [Function.iterate_succ_apply']
    exact subStep_agrees hq hf (by omega) (hA (by omega)) ht
  · intro hk
    obtain ⟨t', h1, _, _, _, h5⟩ := subStep_cell hq.1
    rw [ht] at h1
    cases h1
    have hy : (50 : Int) - ((k + 1 : Nat) : Int) = 49 - (k : Int) := by push_cast; ring
    rw [hy, h5, if_pos ((interior_iff (49 - (k : Int)) 50).2 (by omega))]
    have hin : isInsideCircle 50 (49 - (k : Int)) center center radius = true := by
      rw [inside_iff]
      have h0 : (0 : Int) ≤ k := Int.natCast_nonneg k
      have h48 : (k : Int) ≤ 48 := by omega
      nlinarith
    have f : ∀ b a : Int, k < (a - 50).natAbs + (b - 50).natAbs →
        s.current.cell b a = 0 ∧ s.previous.cell b a = 0 := hf
    have hw : s.current.cell (49 - (k : Int) + 1) 50 = tip k := by
      have : (49 - (k : Int) + 1) = 50 - (k : Int) := by ring
      rw [this]; exact hW (by omega)
    unfold newValue
    rw [if_pos hin, (f (49 - (k : Int)) 50 (by omega)).1, (f (49 - (k : Int)) 50 (by omega)).2,
      (f (49 - (k : Int) - 1) 50 (by omega)).1, (f (49 - (k : Int)) (50 + 1) (by omega)).1,
      (f (49 - (k : Int)) (50 - 1) (by omega)).1, hw]
    rfl

/-- The impulse at the centre followed by `n` sub-steps always returns, and the
resulting state satisfies `Response n`. -/
theorem impulse_response (n : Nat) :
    ∃ e s, mouseDown init 50 50 = some e ∧ subSteps n e = some s ∧ Response n s := by
  obtain ⟨e, h1, hq, hc, hp, _⟩ := impulse_cells accepted_centre
  obtain ⟨s, h2, h3⟩ := subSteps_inv Response (fun _ _ h => response_step h) n 0 e
    (response_zero hq hc hp)
  rw [Nat.zero_add] at h3
  exact ⟨e, s, h1, h2, h3⟩

/-- A state that a symmetric window describes has the full symmetry of the
square on the cells `1 .. 99`. -/
theorem fourFold_of {n : Nat} {s : Membrane} {w : Grid × Grid} (hs : s.Sized)
    (hf : Front 50 50 n s) (hn : n ≤ 5) (hA : Agrees s w) (hW : WindowSym w.1)
    (hM : Mirrored s) : FourFold s.current := by
  have key : ∀ y x : Int, s.current.cell y x = s.current.cell y (100 - x) ∧
      s.current.cell y x = s.current.cell x y := by
    intro y x
    by_cases hwin : (45 ≤ y ∧ y ≤ 55) ∧ (45 ≤ x ∧ x ≤ 55)
    · obtain ⟨i, hi⟩ := Int.eq_ofNat_of_zero_le (show 0 ≤ y - 45 by omega)
      obtain ⟨j, hj⟩ := Int.eq_ofNat_of_zero_le (show 0 ≤ x - 45 by omega)
      have hW' := hW i (by omega) j (by omega)
      have e : 100 - x - 45 = 10 - (x - 45) := by ring
      rw [(hA y x).1, (hA y (100 - x)).1, (hA x y).1, e, hi, hj]
      exact hW'
    · have f : ∀ b a : Int, n < (a - 50).natAbs + (b - 50).natAbs →
          s.current.cell b a = 0 ∧ s.previous.cell b a = 0 := hf
      rw [(f y x (by omega)).1, (f y (100 - x) (by omega)).1, (f x y (by omega)).1]
      exact ⟨rfl, rfl⟩
  intro x y hx1 hx2 hy1 hy2
  have r : ∀ b a : Int, 0 ≤ b ∧ b < 100 → 0 ≤ a ∧ a < 100 →
      s.current.read b a = some (s.current.cell b a) := fun b a hb ha =>
    hs.2.1.read_some hb ha
  rw [r y x (by omega) (by omega), r y (100 - x) (by omega) (by omega),
    r (100 - y) x (by omega) (by omega), r x y (by omega) (by omega)]
  refine ⟨?_, ?_, ?_⟩
  · rw [← (key y x).1]
  · rw [← (hM y x hy1 hy2).1]
  · rw [← (key y x).2]

theorem window_step_1 : windowStep window0 = (window1, window0.1) := by decide!

theorem window_step_2 : windowStep (window1, window0.1) = (window2, window1) := by decide!

theorem window_step_3 : windowStep (window2, window1) = (window3, window2) := by decide!

theorem window_step_4 : windowStep (window3, window2) = (window4, window3) := by decide!

/-- The windows `window1 .. window4` are the first four iterates of `windowStep`. -/
theorem window_iterate :
    windowStep^[1] window0 = (window1, window0.1) ∧ windowStep^[2] window0 = (window2, window1) ∧
      windowStep^[3] window0 = (window3, window2) ∧
      windowStep^[4] window0 = (window4, window3) := by
  have h1 : windowStep^[1] window0 = (window1, window0.1) := window_step_1
  have h2 : windowStep^[2] window0 = (window2, window1) := by
    rw [Function.iterate_succ_apply', h1, window_step_2]
  have h3 : windowStep^[3] window0 = (window3, window2) := by
    rw [Function.iterate_succ_apply', h2, window_step_3]
  have h4 : windowStep^[4] window0 = (window4, window3) := by
    rw [Function.iterate_succ_apply', h3, window_step_4]
  exact ⟨h1, h2, h3, h4⟩

theorem window_sym_1 : WindowSym (windowStep^[1] window0).1 := by
  rw [window_iterate.1]; decide!

theorem window_sym_2 : WindowSym (windowStep^[2] window0).1 := by
  rw [window_iterate.2.1]; decide!

theorem window_sym_3 : WindowSym (windowStep^[3] window0).1 := by
  rw [window_iterate.2.2.1]; decide!

theorem window_sym_4 : WindowSym (windowStep^[4] window0).1 := by
  rw [window_iterate.2.2.2]; decide!

/-- The head of the disturbance when it reaches row `1`. -/
theorem tip_49 : tip 49 = 10252851 / 2 ^ 122 := by decide!

/-- Two mirror-image entries of the window after five sub-steps, and the
transpose of the second. -/
theorem window5_cells :
    (windowStep^[5] window0).1.cell 4 3 = 14961557 / 67108864 ∧
      (windowStep^[5] window0).1.cell 4 7 = 7480779 / 33554432 ∧
      (windowStep^[5] window0).1.cell 7 4 = 14961557 / 67108864 := by
  rw [Function.iterate_succ_apply', window_iterate.2.2.2]
  decide!

theorem Grid.Sized.write_isSome_iff {g : Grid} (hg : g.Sized) (y x : Int) (v : ℚ) :
    (g.write y x v).isSome = true ↔ (0 ≤ y ∧ y < 100) ∧ (0 ≤ x ∧ x < 100) := by
  rw [← hg.read_isSome_iff]
  by_cases hneg : y < 0 ∨ x < 0
  · rw [Grid.read_neg g y x hneg, Grid.write_neg g y x v hneg]
    exact Iff.rfl
  obtain ⟨i, rfl⟩ := Int.eq_ofNat_of_zero_le (show 0 ≤ y by omega)
  obtain ⟨j, rfl⟩ := Int.eq_ofNat_of_zero_le (show 0 ≤ x by omega)
  rw [Grid.read_of_nat, Grid.write_of_nat]
  cases hrow : g[i]? with
  | none => simp
  | some row =>
    simp only [Option.some_bind]
    by_cases hj : j < row.length
    · simp [hj, List.getElem?_eq_getElem hj]
    · simp [hj, List.getElem?_eq_none (show row.length ≤ j by omega)]

theorem sq_gt_iff (x y : Int) :
    (x - 50) ^ 2 + (y - 50) ^ 2 > 49 ^ 2 ↔ ¬ ((x - 50) * (x - 50) + (y - 50) * (y - 50) ≤ 2401) := by
  rw [pow_two, pow_two]
  norm_num

/-! ## The claims -/

/-- C1, zero-state stability: from the constructed state, after any number `n`
of `advance()` calls the run returns a state in which every cell of `previous`,
`current` and `next` reads exactly `0`. -/
theorem zero_state_stability (n : Nat) :
    ∃ s, run (List.replicate n Call.advance) init = some s ∧
      ∀ y x : Int, 0 ≤ y → y < 100 → 0 ≤ x → x < 100 →
        s.previous.read y x = some 0 ∧ s.current.read y x = some 0 ∧
        s.next.read y x = some 0 :=
  ⟨init, run_advance_init n, fun _ _ hy1 hy2 hx1 hx2 =>
    ⟨zero_read ⟨hy1, hy2⟩ ⟨hx1, hx2⟩, zero_read ⟨hy1, hy2⟩ ⟨hx1, hx2⟩,
      zero_read ⟨hy1, hy2⟩ ⟨hx1, hx2⟩⟩⟩

/-- Counterexample to C2 as stated (the update and its witness values in exact
arithmetic): after `excite(50,50)` on the constructed state, one sub-step
stores in `current[50][50]` the `float` `4152361 / 8388608`, which is neither
the exact value of `0.99 * (2 c - p + 0.25 * (c[y+1][x] + c[y-1][x] + c[y][x+1] + c[y][x-1] - 4 c))`
at that cell nor the claimed `0.495`, and in `current[50][51]` the `float`
`4152361 / 16777216`, which is not the claimed `0.2475`. -/
theorem update_rule_exact_fails :
    ∃ e t, mouseDown init 50 50 = some e ∧ subStep e = some t ∧
      t.current.read 50 50 = some (4152361 / 8388608) ∧
      t.current.read 50 50 ≠ some
        (99 / 100 * (2 * e.current.cell 50 50 - e.previous.cell 50 50
          + 1 / 4 * (e.current.cell (50 + 1) 50 + e.current.cell (50 - 1) 50
            + e.current.cell 50 (50 + 1) + e.current.cell 50 (50 - 1)
            - 4 * e.current.cell 50 50))) ∧
      t.current.read 50 50 ≠ some (495 / 1000) ∧
      t.current.read 50 51 = some (4152361 / 16777216) ∧
      t.current.read 50 51 ≠ some (2475 / 10000) := by
  obtain ⟨e, h1, hq, hc, hp, _⟩ := impulse_cells accepted_centre
  obtain ⟨t, ht, hts, _, _, h5⟩ := subStep_cell hq.1
  have r : ∀ b a : Int, 0 ≤ b ∧ b < 100 → 0 ≤ a ∧ a < 100 →
      t.current.read b a = some (t.current.cell b a) := fun b a hb ha =>
    hts.2.1.read_some hb ha
  have v1 : t.current.cell 50 50 = 4152361 / 8388608 := by
    rw [h5, if_pos (by decide)]
    unfold newValue
    simp only [hc, hp]
    decide!
  have v2 : t.current.cell 50 51 = 4152361 / 16777216 := by
    rw [h5, if_pos (by decide)]
    unfold newValue
    simp only [hc, hp]
    decide!
  refine ⟨e, t, h1, ht, ?_, ?_, ?_, ?_, ?_⟩
  · rw [r 50 50 (by decide) (by decide), v1]
  · rw [r 50 50 (by decide) (by decide), v1]
    simp only [hc, hp]
    decide!
  · rw [r 50 50 (by decide) (by decide), v1]
    decide!
  · rw [r 50 51 (by decide) (by decide), v2]
  · rw [r 50 51 (by decide) (by decide), v2]
    decide!

/-- C2 as amended, sub-step update rule: on a state with 100x100 grids one
integration sub-step returns, and the new `current` holds at every interior
cell `1 <= x, y <= 98` the value `0` when `(x-50)^2 + (y-50)^2 > 49^2` and
otherwise the `float` value of
`damping * (2 c[y][x] - p[y][x] + c2 * (c[y+1][x] + c[y-1][x] + c[y][x+1] + c[y][x-1] - 4 c[y][x]))`,
every operation rounded to `float` (`fadd`, `fsub`, `fmul`) in the order of
source lines 84-92, with `damping = 0.99f = 4152361 / 4194304` and
`c2 = 0.25f = 1/4`; in a state whose cells are at most `2 ^ 100` in absolute
value none of these operations overflows (`NoOverflow`), so each rounding is
the binary32 one; `c`, `p` are the old `current` and `previous` (`cell` is
the value read, every in-range read of the old grids succeeding);
`timerCallback` (`advance()`) is exactly ten such sub-steps in sequence. -/
theorem subStep_update_rule (s : Membrane) (hs : s.Sized) :
    (∃ t, subStep s = some t ∧
      ∀ y x : Int, 1 ≤ y → y ≤ 98 → 1 ≤ x → x ≤ 98 →
        t.current.read y x = some
          (if (x - 50) ^ 2 + (y - 50) ^ 2 > 49 ^ 2 then 0
           else fmul damping (fadd (fsub (fmul 2 (s.current.cell y x)) (s.previous.cell y x))
             (fmul c2 (fsub
               (fadd (fadd (fadd (s.current.cell (y + 1) x) (s.current.cell (y - 1) x))
                 (s.current.cell y (x + 1))) (s.current.cell y (x - 1)))
               (fmul 4 (s.current.cell y x))))))) ∧
    (damping = 4152361 / 4194304 ∧ c2 = 1 / 4) ∧
    ((∀ b a : Int, |s.current.cell b a| ≤ 2 ^ 100 ∧ |s.previous.cell b a| ≤ 2 ^ 100) →
      ∀ y x : Int, NoOverflow (s.current.cell y x) (s.previous.cell y x)
        (s.current.cell (y + 1) x) (s.current.cell (y - 1) x)
        (s.current.cell y (x + 1)) (s.current.cell y (x - 1))) ∧
    (∀ y x : Int, 0 ≤ y → y ≤ 99 → 0 ≤ x → x ≤ 99 →
      s.current.read y x = some (s.current.cell y x) ∧
      s.previous.read y x = some (s.previous.cell y x)) ∧
    timerCallback s = subSteps 10 s := by
  refine ⟨?_, ⟨damping_eq, c2_eq⟩, fun hb y x => stencil_noOverflow (hb y x).1 (hb y x).2
      (hb (y + 1) x).1 (hb (y - 1) x).1 (hb y (x + 1)).1 (hb y (x - 1)).1,
    fun y x hy1 hy2 hx1 hx2 =>
    ⟨hs.2.1.read_some (by unfold gridSize; omega) (by unfold gridSize; omega),
      hs.1.read_some (by unfold gridSize; omega) (by unfold gridSize; omega)⟩,
    timerCallback_eq s⟩
  obtain ⟨t, h1, _, _, _, h5⟩ := subStep_spec hs
  refine ⟨t, h1, ?_⟩
  intro y x hy1 hy2 hx1 hx2
  rw [h5, if_pos ((interior_iff y x).2 ⟨⟨hy1, hy2⟩, ⟨hx1, hx2⟩⟩)]
  unfold newValue stencil
  by_cases hin : (x - 50) * (x - 50) + (y - 50) * (y - 50) ≤ 2401
  · rw [if_pos ((inside_iff x y).2 hin), if_neg (fun hc => (sq_gt_iff x y).1 hc hin)]
  · rw [if_neg (fun hc => hin ((inside_iff x y).1 hc)), if_pos ((sq_gt_iff x y).2 hin)]

/-- Witness for C2 as amended: after `excite(50,50)` on the constructed state,
one sub-step gives `current[50][50] = 4152361 / 8388608` (the `float` nearest
to `0.495`) and `4152361 / 16777216` (the `float` nearest to `0.2475`) at the
four axis neighbours. -/
theorem subStep_update_rule_witness :
    ∃ e t, mouseDown init 50 50 = some e ∧ e.Sized ∧ subStep e = some t ∧
      t.current.read 50 50 = some (4152361 / 8388608) ∧
      t.current.read 50 51 = some (4152361 / 16777216) ∧
      t.current.read 50 49 = some (4152361 / 16777216) ∧
      t.current.read 51 50 = some (4152361 / 16777216) ∧
      t.current.read 49 50 = some (4152361 / 16777216) := by
  obtain ⟨e, h1, hq, hc, hp, _⟩ := impulse_cells accepted_centre
  obtain ⟨⟨t, ht, hr⟩, _⟩ := subStep_update_rule e hq.1
  refine ⟨e, t, h1, hq.1, ht, ?_, ?_, ?_, ?_, ?_⟩
  · rw [hr 50 50 (by decide) (by decide) (by decide) (by decide)]
    simp only [hc, hp]; decide!
  · rw [hr 50 51 (by decide) (by decide) (by decide) (by decide)]
    simp only [hc, hp]; decide!
  · rw [hr 50 49 (by decide) (by decide) (by decide) (by decide)]
    simp only [hc, hp]; decide!
  · rw [hr 51 50 (by decide) (by decide) (by decide) (by decide)]
    simp only [hc, hp]; decide!
  · rw [hr 49 50 (by decide) (by decide) (by decide) (by decide)]
    simp only [hc, hp]; decide!

/-- C3, buffer rotation: the two swaps are the cyclic rotation
(previous, current, next) -> (current, next, previous); one sub-step on a state
with 100x100 grids therefore yields (old current, freshly computed grid, old
previous); and after `timerCallback` (ten sub-steps) the final `previous` is
the `current` grid as it stood after the ninth sub-step. -/
theorem buffer_rotation (s : Membrane) (hs : s.Sized) :
    (∀ m : Membrane,
      rotate m = { previous := m.current, current := m.next, next := m.previous }) ∧
    (∃ u, gridPass s = some u ∧ u.previous = s.previous ∧ u.current = s.current ∧
      subStep s = some { previous := s.current, current := u.next, next := s.previous }) ∧
    (∃ s9 s10, subSteps 9 s = some s9 ∧ timerCallback s = some s10 ∧
      s10.previous = s9.current) := by
  refine ⟨fun _ => rfl, ?_, ?_⟩
  · obtain ⟨u, hu, hup, huc, _, _⟩ := gridPass_spec hs
    refine ⟨u, hu, hup, huc, ?_⟩
    simp only [subStep, hu, Option.map_some', rotate, huc, hup]
  · obtain ⟨s9, h9, hs9⟩ := subSteps_sized hs 9
    obtain ⟨s10, h10, _, hprev, _⟩ := subStep_spec hs9
    refine ⟨s9, s10, h9, ?_, hprev⟩
    rw [timerCallback_eq, subSteps_succ 9, h9]
    exact h10

/-- Witness for C3 on the state `rotationExample`, whose three buffers hold
`3`, `5` and `7` at the border cell `(0, 0)`: one sub-step yields (old current,
fresh grid, old previous), after nine sub-steps `current[0][0]` is `5` again,
and after `advance()` `previous[0][0] = 5`, `current[0][0] = 7`,
`next[0][0] = 3`. -/
theorem buffer_rotation_witness :
    rotationExample.Sized ∧
      (rotationExample.previous.read 0 0 = some 3 ∧ rotationExample.current.read 0 0 = some 5 ∧
        rotationExample.next.read 0 0 = some 7) ∧
      (∃ u, gridPass rotationExample = some u ∧
        subStep rotationExample = some
          { previous := rotationExample.current, current := u.next,
            next := rotationExample.previous }) ∧
      ∃ s9 s10, subSteps 9 rotationExample = some s9 ∧
        timerCallback rotationExample = some s10 ∧ s10.previous = s9.current ∧
        s9.current.read 0 0 = some 5 ∧ s10.previous.read 0 0 = some 5 ∧
        s10.current.read 0 0 = some 7 ∧ s10.next.read 0 0 = some 3 := by
  obtain ⟨_, ⟨u, hu, _, _, hsub⟩, s9, s10, h9, h10, hrot⟩ :=
    buffer_rotation rotationExample rotationExample_sized
  obtain ⟨rp, rc, rn⟩ := rotationExample_reads
  obtain ⟨t9, g9, _, b9⟩ := subSteps_border rotationExample_sized 9
  obtain ⟨t10, g10, _, b10⟩ := subSteps_border rotationExample_sized 10
  rw [h9] at g9
  cases g9
  rw [← timerCallback_eq, h10] at g10
  cases g10
  have hi : ¬ interior 0 0 := by rw [interior_iff]; omega
  obtain ⟨_, c9, _⟩ := (b9 0 0 hi).1 (by decide)
  obtain ⟨p10, c10, n10⟩ := (b10 0 0 hi).2.1 (by decide)
  exact ⟨rotationExample_sized, ⟨rp, rc, rn⟩, ⟨u, hu, hsub⟩, s9, s10, h9, h10, hrot,
    c9.trans rc, p10.trans rc, c10.trans rn, n10.trans rp⟩

/-- C4, accepted excitation: on a state with 100x100 grids, for `1 < x < 99`,
`1 < y < 99` and `(x-50)^2 + (y-50)^2 <= 49^2`, `excite(x,y)` returns a state
with `current[y][x] = 1`, `previous[y][x] = 0.5`, every other cell of `current`
and `previous` unchanged, and `next` unchanged. -/
theorem excite_accepted (s : Membrane) (hs : s.Sized) (x y : Int)
    (hx : 1 < x ∧ x < 99) (hy : 1 < y ∧ y < 99)
    (hc : (x - 50) ^ 2 + (y - 50) ^ 2 ≤ 49 ^ 2) :
    ∃ t, mouseDown s x y = some t ∧
      t.current.read y x = some 1 ∧ t.previous.read y x = some (1 / 2) ∧
      (∀ y' x' : Int, ¬ (y' = y ∧ x' = x) →
        t.current.read y' x' = s.current.read y' x' ∧
        t.previous.read y' x' = s.previous.read y' x') ∧
      t.next = s.next := by
  have ha : Accepted x y := by
    refine ⟨hx.1, hx.2, hy.1, hy.2, ?_⟩
    by_contra hcon
    exact absurd hc (not_le.2 ((sq_gt_iff x y).2 hcon))
  obtain ⟨t, h1, _, h3, h4, h5⟩ := mouseDown_accept hs ha
  refine ⟨t, h1, ?_, ?_, ?_, h3⟩
  · rw [h4, if_pos ⟨rfl, rfl⟩]
  · rw [h5, if_pos ⟨rfl, rfl⟩]
  · intro y' x' hne
    rw [h4, h5, if_neg hne, if_neg hne]
    exact ⟨rfl, rfl⟩

/-- Witness for C4: `excite(50,50)` on the constructed state gives
`current[50][50] = 1` and `previous[50][50] = 0.5`. -/
theorem excite_accepted_witness :
    ∃ t, mouseDown init 50 50 = some t ∧
      t.current.read 50 50 = some 1 ∧ t.previous.read 50 50 = some (1 / 2) := by
  obtain ⟨t, h1, h2, h3, _⟩ := excite_accepted init init_sized 50 50 (by decide) (by decide)
    (by decide)
  exact ⟨t, h1, h2, h3⟩

/-- C5, rejection of invalid excitation: for every state and all integers
`x`, `y`, if `x <= 1` or `x >= 99` or `y <= 1` or `y >= 99` or
`(x-50)^2 + (y-50)^2 > 49^2`, then `excite(x,y)` returns the state unchanged. -/
theorem excite_rejected (s : Membrane) (x y : Int)
    (h : x ≤ 1 ∨ x ≥ 99 ∨ y ≤ 1 ∨ y ≥ 99 ∨ (x - 50) ^ 2 + (y - 50) ^ 2 > 49 ^ 2) :
    mouseDown s x y = some s := by
  apply mouseDown_reject
  rintro ⟨h1, h2, h3, h4, h5⟩
  rcases h with h | h | h | h | h
  · omega
  · omega
  · omega
  · omega
  · exact (sq_gt_iff x y).1 h h5

/-- Witness for C5: `excite(0,50)` changes nothing. -/
theorem excite_rejected_witness : mouseDown init 0 50 = some init :=
  excite_rejected init 0 50 (Or.inl (by decide))

/-- C6, boundary containment: every sequence of `excite(x,y)` calls (arbitrary
integers, gated as in the code) and `advance()` calls from the constructed
state returns, and in the state reached every in-range cell with
`(x-50)^2 + (y-50)^2 > 49^2` is inactive and reads exactly `0` in `current`. -/
theorem boundary_containment (cs : List Call) :
    ∃ s, run cs init = some s ∧
      ∀ y x : Int, 0 ≤ y → y < 100 → 0 ≤ x → x < 100 →
        (x - 50) ^ 2 + (y - 50) ^ 2 > 49 ^ 2 →
        isInsideCircle x y center center radius = false ∧ s.current.read y x = some 0 := by
  obtain ⟨s, hs, hq⟩ := run_quiet cs
  refine ⟨s, hs, ?_⟩
  intro y x hy1 hy2 hx1 hx2 hout
  have hin : isInsideCircle x y center center radius = false := by
    rw [← Bool.not_eq_true, inside_iff]
    exact (sq_gt_iff x y).1 hout
  refine ⟨hin, ?_⟩
  rw [hq.1.2.1.read_some (by unfold gridSize; omega) (by unfold gridSize; omega),
    (hq.2 y x (Or.inr hin)).2.1]

/-- Counterexample to C7 as stated (symmetry after any number `n >= 1` of
sub-steps).  After the impulse at the centre and 5 sub-steps the field is not
symmetric under `x -> 100 - x` at `x = 48`, `y = 49`: `current[49][48]` is
`14961557 / 67108864` and its mirror image `current[49][52]` is
`7480779 / 33554432`, one unit in the last place more, because the `float` sum
of the four neighbours is rounded after each addition and the two mirror
cells add their horizontal neighbours in opposite orders.  After 49 sub-steps
it is not symmetric under `y -> 100 - y` either: the disturbance reaches the
interior cell `(50, 1)` with `current[1][50] = 10252851 / 2^122`, while its
mirror image `(50, 99)` is a border cell that the integrator never updates. -/
theorem impulse_symmetry_fails :
    ∃ e, mouseDown init 50 50 = some e ∧
      (∃ s, subSteps 5 e = some s ∧
        s.current.read 49 48 = some (14961557 / 67108864) ∧
        s.current.read 49 (100 - 48) = some (7480779 / 33554432) ∧ ¬ FourFold s.current) ∧
      (∃ s, subSteps 49 e = some s ∧
        s.current.read 1 50 = some (10252851 / 2 ^ 122) ∧
        s.current.read (100 - 1) 50 = some 0 ∧ ¬ FourFold s.current) := by
  obtain ⟨e, s, h1, h2, hq, _, _, hA, _⟩ := impulse_response 5
  obtain ⟨e', s', h1', h2', hq', _, _, _, hW⟩ := impulse_response 49
  rw [h1] at h1'
  cases h1'
  refine ⟨e, h1, ⟨s, h2, ?_⟩, ⟨s', h2', ?_⟩⟩
  · have hA5 := hA (le_refl _)
    have r1 : s.current.read 49 48 = some (14961557 / 67108864) := by
      rw [hq.1.2.1.read_some (by decide) (by decide), (hA5 49 48).1]
      exact congrArg some window5_cells.1
    have r2 : s.current.read 49 (100 - 48) = some (7480779 / 33554432) := by
      rw [hq.1.2.1.read_some (by decide) (by decide), (hA5 49 (100 - 48)).1]
      exact congrArg some window5_cells.2.1
    refine ⟨r1, r2, ?_⟩
    intro hF
    have := (hF 48 49 (by decide) (by decide) (by decide) (by decide)).1
    rw [r1, r2] at this
    exact absurd (Option.some.inj this) (by decide!)
  · have hw := hW (le_refl _)
    have e1 : (50 : Int) - ((49 : Nat) : Int) = 1 := by norm_num
    rw [e1, tip_49] at hw
    have r1 : s'.current.read 1 50 = some (10252851 / 2 ^ 122) := by
      rw [hq'.1.2.1.read_some (by decide) (by decide), hw]
    have r2 : s'.current.read (100 - 1) 50 = some 0 := by
      rw [hq'.1.2.1.read_some (by decide) (by decide),
        (hq'.2 (100 - 1) 50 (Or.inl (by rw [interior_iff]; omega))).2.1]
    refine ⟨r1, r2, ?_⟩
    intro hF
    have := (hF 50 1 (by decide) (by decide) (by decide) (by decide)).2.1
    rw [r1, r2] at this
    exact absurd (Option.some.inj this) (by norm_num)

/-- C7 as amended, impulse response symmetry: from the constructed state, after
`excite(50,50)` followed by `n` sub-steps with `1 <= n <= 48`, the run returns
and for all `x`, `y` in `1..99` `current[y][x] = current[100-y][x]`; for
`1 <= n <= 4` moreover
`current[y][x] = current[y][100-x] = current[100-y][x] = current[x][y]`
(`float` arithmetic). -/
theorem impulse_symmetry_early (n : Nat) (h1 : 1 ≤ n) (h48 : n ≤ 48) :
    ∃ e s, mouseDown init 50 50 = some e ∧ subSteps n e = some s ∧
      (∀ x y : Int, 1 ≤ x → x ≤ 99 → 1 ≤ y → y ≤ 99 →
        s.current.read y x = s.current.read (100 - y) x) ∧
      (n ≤ 4 → ∀ x y : Int, 1 ≤ x → x ≤ 99 → 1 ≤ y → y ≤ 99 →
        s.current.read y x = s.current.read y (100 - x) ∧
        s.current.read y x = s.current.read (100 - y) x ∧
        s.current.read y x = s.current.read x y) := by
  obtain ⟨e, s, he, hs, hq, hf, hM, hA, _⟩ := impulse_response n
  refine ⟨e, s, he, hs, ?_, ?_⟩
  · intro x y _ _ hy1 hy2
    rw [hq.1.2.1.read_some (y := y) (x := x) (by unfold gridSize; omega)
        (by unfold gridSize; omega),
      hq.1.2.1.read_some (y := 100 - y) (x := x) (by unfold gridSize; omega)
        (by unfold gridSize; omega),
      (hM h48 y x hy1 hy2).1]
  · intro h4
    have hA' := hA (by omega)
    have hW : WindowSym (windowStep^[n] window0).1 := by
      interval_cases n
      · exact window_sym_1
      · exact window_sym_2
      · exact window_sym_3
      · exact window_sym_4
    exact fourFold_of hq.1 hf (by omega) hA' hW (hM h48)

/-- Witness for C7 as amended, at `n = 4`. -/
theorem impulse_symmetry_early_witness :
    ∃ e s, mouseDown init 50 50 = some e ∧ subSteps 4 e = some s ∧
      (∀ x y : Int, 1 ≤ x → x ≤ 99 → 1 ≤ y → y ≤ 99 →
        s.current.read y x = s.current.read (100 - y) x) ∧
      ((4 : Nat) ≤ 4 → ∀ x y : Int, 1 ≤ x → x ≤ 99 → 1 ≤ y → y ≤ 99 →
        s.current.read y x = s.current.read y (100 - x) ∧
        s.current.read y x = s.current.read (100 - y) x ∧
        s.current.read y x = s.current.read x y) :=
  impulse_symmetry_early 4 (by decide) (by decide)

/-- C8, fixed zero boundary: in every state reached from the constructed state
by a sequence of `excite` and `advance()` calls every border cell (`x` or `y`
in `{0, 99}`) reads exactly `0` in `current`; `excite` never accepts a border
cell; and the border cells `(99, 50)` and `(50, 99)` lie inside the domain
circle. -/
theorem fixed_zero_boundary (cs : List Call) :
    (∃ s, run cs init = some s ∧
      ∀ y x : Int, 0 ≤ y → y < 100 → 0 ≤ x → x < 100 →
        (x = 0 ∨ x = 99 ∨ y = 0 ∨ y = 99) → s.current.read y x = some 0) ∧
    (∀ (s : Membrane) (x y : Int), (x = 0 ∨ x = 99 ∨ y = 0 ∨ y = 99) →
      mouseDown s x y = some s) ∧
    isInsideCircle 99 50 center center radius = true ∧
    isInsideCircle 50 99 center center radius = true := by
  refine ⟨?_, ?_, by decide, by decide⟩
  · obtain ⟨s, hs, hq⟩ := run_quiet cs
    refine ⟨s, hs, ?_⟩
    intro y x hy1 hy2 hx1 hx2 hb
    rw [hq.1.2.1.read_some (by unfold gridSize; omega) (by unfold gridSize; omega),
      (hq.2 y x (Or.inl (by rw [interior_iff]; omega))).2.1]
  · intro s x y hb
    apply mouseDown_reject
    unfold Accepted
    omega

/-- C9, excitation is idempotent: for every state and all integers `x`, `y`,
applying `excite(x,y)` twice in a row gives exactly the result of applying it
once. -/
theorem excite_idempotent (s : Membrane) (x y : Int) :
    (mouseDown s x y).bind (fun t => mouseDown t x y) = mouseDown s x y :=
  mouseDown_twice s x y

/-- C10, index safety: a read or write of a 100x100 grid succeeds exactly when
both indices are within `0..99`; and on a state with three 100x100 grids the
inner-loop body at every interior cell, the integration sub-step,
`timerCallback` (`advance()`), the renderer loop and `excite(x,y)` for
arbitrary integers `x`, `y` all return, i.e. perform only in-range accesses. -/
theorem index_safety (s : Membrane) (hs : s.Sized) :
    (∀ (g : Grid), g.Sized → ∀ (y x : Int) (v : ℚ),
      ((g.read y x).isSome = true ↔ (0 ≤ y ∧ y < 100) ∧ (0 ≤ x ∧ x < 100)) ∧
      ((g.write y x v).isSome = true ↔ (0 ≤ y ∧ y < 100) ∧ (0 ≤ x ∧ x < 100))) ∧
    (∀ y x : Int, 1 ≤ y → y ≤ 98 → 1 ≤ x → x ≤ 98 → ∃ t, updateCell y x s = some t) ∧
    (∃ t, subStep s = some t) ∧
    (∃ t, timerCallback s = some t) ∧
    (∃ l, paintReads s = some l) ∧
    (∀ x y : Int, ∃ t, mouseDown s x y = some t) := by
  refine ⟨fun g hg y x v => ⟨hg.read_isSome_iff y x, hg.write_isSome_iff y x v⟩, ?_, ?_, ?_,
    paintReads_some hs, ?_⟩
  · intro y x hy1 hy2 hx1 hx2
    obtain ⟨t, ht, _⟩ := updateCell_spec hs (y := y) (x := x)
      (by unfold gridSize; omega) (by unfold gridSize; omega)
    exact ⟨t, ht⟩
  · obtain ⟨t, ht, _⟩ := subStep_spec hs
    exact ⟨t, ht⟩
  · obtain ⟨t, ht, _⟩ := subSteps_sized hs 10
    exact ⟨t, by rw [timerCallback_eq]; exact ht⟩
  · intro x y
    obtain ⟨t, ht, _⟩ := mouseDown_sized hs x y
    exact ⟨t, ht⟩

/-- Witness for C10 on the constructed state. -/
theorem index_safety_witness :
    init.Sized ∧ (∃ t, timerCallback init = some t) ∧ (∃ l, paintReads init = some l) ∧
      ∀ x y : Int, ∃ t, mouseDown init x y = some t :=
  ⟨init_sized, (index_safety init init_sized).2.2.2.1, (index_safety init init_sized).2.2.2.2.1,
    (index_safety init init_sized).2.2.2.2.2⟩

/-! ## Example states -/

theorem example_write {y x : Int} (hy : 0 ≤ y ∧ y < gridSize) (hx : 0 ≤ x ∧ x < gridSize)
    (v : ℚ) :
    Grid.Sized ((init.next.write y x v).getD init.next) ∧
      ∀ y' x' : Int, Grid.read ((init.next.write y x v).getD init.next) y' x' =
        if y' = y ∧ x' = x then some v else init.next.read y' x' := by
  obtain ⟨g, hg, hgs⟩ := init_sized.2.2.write hy hx v
  rw [hg]
  exact ⟨hgs, Grid.read_write hg⟩

theorem staleExample_sized : staleExample.Sized :=
  ⟨init_sized.1, init_sized.2.1,
    (example_write (y := 50) (x := 50) (by decide) (by decide) 7).1⟩

theorem front_run {x0 y0 : Int} (h : Accepted x0 y0) (n : Nat) :
    ∃ e s, mouseDown init x0 y0 = some e ∧ subSteps n e = some s ∧ Quiet s ∧
      Front x0 y0 n s := by
  obtain ⟨e, h1, hq, hc, hp, _⟩ := impulse_cells h
  obtain ⟨s, h2, h3⟩ := subSteps_inv (fun k t => Quiet t ∧ Front x0 y0 k t)
    (fun k t ht => by
      obtain ⟨u, hu, hqu⟩ := subStep_quiet ht.1
      exact ⟨u, hu, hqu, subStep_front ht.1 ht.2 hu⟩)
    n 0 e ⟨hq, impulse_front hc hp⟩
  rw [Nat.zero_add] at h3
  exact ⟨e, s, h1, h2, h3.1, h3.2⟩

/-- A sub-step does not look at the interior of the scratch buffer. -/
theorem subStep_scratch {s1 s2 : Membrane} (h1 : s1.Sized) (h2 : s2.Sized)
    (hp : s1.previous = s2.previous) (hc : s1.current = s2.current)
    (hb : ∀ y x : Int, ¬ interior y x → s1.next.read y x = s2.next.read y x) :
    ∃ t, subStep s1 = some t ∧ subStep s2 = some t := by
  obtain ⟨t1, a1, a2, a3, a4, a5⟩ := subStep_spec h1
  obtain ⟨t2, b1, b2, b3, b4, b5⟩ := subStep_spec h2
  have hcur : t1.current = t2.current := by
    apply Grid.Sized.ext a2.2.1 b2.2.1
    intro y x _ _ _ _
    rw [a5, b5, newValue_congr hc hp]
    by_cases hi : interior y x
    · rw [if_pos hi, if_pos hi]
    · rw [if_neg hi, if_neg hi]; exact hb y x hi
  have : t1 = t2 := by
    cases t1; cases t2
    simp only at a3 a4 b3 b4 hcur
    simp only [Membrane.mk.injEq]
    exact ⟨by rw [a3, b3, hc], hcur, by rw [a4, b4, hp]⟩
  exact ⟨t1, a1, by rw [this]; exact b1⟩

/-- C14, dimension invariant: `Sized` says that `previous`, `current` and `next`
each have exactly 100 rows of exactly 100 entries; the constructor establishes
it, and every `excite` call, every integration sub-step and every `advance()`
call returns and preserves it. -/
theorem dimension_invariant :
    (∀ s : Membrane, s.Sized ↔
      (s.previous.length = 100 ∧ ∀ row ∈ s.previous, row.length = 100) ∧
      (s.current.length = 100 ∧ ∀ row ∈ s.current, row.length = 100) ∧
      (s.next.length = 100 ∧ ∀ row ∈ s.next, row.length = 100)) ∧
    init.Sized ∧
    (∀ (s : Membrane) (x y : Int), s.Sized → ∃ t, mouseDown s x y = some t ∧ t.Sized) ∧
    (∀ s : Membrane, s.Sized → ∃ t, subStep s = some t ∧ t.Sized) ∧
    (∀ s : Membrane, s.Sized → ∃ t, timerCallback s = some t ∧ t.Sized) := by
  refine ⟨fun s => Iff.rfl, init_sized, fun s x y hs => mouseDown_sized hs x y, ?_, ?_⟩
  · intro s hs
    obtain ⟨t, h1, h2, _⟩ := subStep_spec hs
    exact ⟨t, h1, h2⟩
  · intro s hs
    obtain ⟨t, h1, h2⟩ := subSteps_sized hs 10
    exact ⟨t, by rw [timerCallback_eq]; exact h1, h2⟩

/-- C17, finite propagation speed: from the constructed state, after one
accepted `excite(x0,y0)` followed by `n` integration sub-steps, the run returns
and `current[y][x] = 0` for every cell with `|x-x0| + |y-y0| > n`. -/
theorem finite_propagation (x0 y0 : Int) (hx : 1 < x0 ∧ x0 < 99) (hy : 1 < y0 ∧ y0 < 99)
    (hc : (x0 - 50) ^ 2 + (y0 - 50) ^ 2 ≤ 49 ^ 2) (n : Nat) :
    ∃ e s, mouseDown init x0 y0 = some e ∧ subSteps n e = some s ∧
      ∀ y x : Int, 0 ≤ y → y ≤ 99 → 0 ≤ x → x ≤ 99 →
        (n : Int) < |x - x0| + |y - y0| → s.current.read y x = some 0 := by
  have ha : Accepted x0 y0 := by
    refine ⟨hx.1, hx.2, hy.1, hy.2, ?_⟩
    by_contra hcon
    exact absurd hc (not_le.2 ((sq_gt_iff x0 y0).2 hcon))
  obtain ⟨e, s, h1, h2, hq, hf⟩ := front_run ha n
  refine ⟨e, s, h1, h2, ?_⟩
  intro y x hy1 hy2 hx1 hx2 hd
  rw [hq.1.2.1.read_some (by unfold gridSize; omega) (by unfold gridSize; omega)]
  have hd' : n < manhattan x y x0 y0 := by
    unfold manhattan
    rw [← Int.natCast_natAbs, ← Int.natCast_natAbs] at hd
    exact_mod_cast hd
  rw [(hf y x hd').1]

/-- Witness for C17: the impulse at `(50, 50)` followed by three sub-steps. -/
theorem finite_propagation_witness :
    ∃ e s, mouseDown init 50 50 = some e ∧ subSteps 3 e = some s ∧
      ∀ y x : Int, 0 ≤ y → y ≤ 99 → 0 ≤ x → x ≤ 99 →
        ((3 : Nat) : Int) < |x - 50| + |y - 50| → s.current.read y x = some 0 :=
  finite_propagation 50 50 (by decide) (by decide) (by decide) 3

/-- C19, stale scratch data never leaks: two states with 100x100 grids, equal
`previous`, equal `current`, and `next` grids that agree on the border ring
(and may differ on every interior cell) are taken by one integration sub-step
to the same state, hence to the same state by any larger number of sub-steps. -/
theorem stale_scratch (s1 s2 : Membrane) (h1 : s1.Sized) (h2 : s2.Sized)
    (hp : s1.previous = s2.previous) (hc : s1.current = s2.current)
    (hb : ∀ y x : Int, 0 ≤ y → y ≤ 99 → 0 ≤ x → x ≤ 99 →
      (x = 0 ∨ x = 99 ∨ y = 0 ∨ y = 99) → s1.next.read y x = s2.next.read y x) :
    (∃ t, subStep s1 = some t ∧ subStep s2 = some t) ∧
      ∀ n : Nat, subSteps (n + 1) s1 = subSteps (n + 1) s2 := by
  have hb' : ∀ y x : Int, ¬ interior y x → s1.next.read y x = s2.next.read y x := by
    intro y x hi
    by_cases hr : (0 ≤ y ∧ y ≤ 99) ∧ (0 ≤ x ∧ x ≤ 99)
    · exact hb y x hr.1.1 hr.1.2 hr.2.1 hr.2.2 (by rw [interior_iff] at hi; omega)
    · have r1 : (s1.next.read y x).isSome ≠ true := fun hcon =>
        hr ((h1.2.2.read_isSome_iff y x).1 hcon |>.imp (fun a => ⟨a.1, by omega⟩)
          (fun a => ⟨a.1, by omega⟩))
      have r2 : (s2.next.read y x).isSome ≠ true := fun hcon =>
        hr ((h2.2.2.read_isSome_iff y x).1 hcon |>.imp (fun a => ⟨a.1, by omega⟩)
          (fun a => ⟨a.1, by omega⟩))
      rw [Option.not_isSome_iff_eq_none.1 r1, Option.not_isSome_iff_eq_none.1 r2]
  obtain ⟨t, a, b⟩ := subStep_scratch h1 h2 hp hc hb'
  refine ⟨⟨t, a, b⟩, fun n => ?_⟩
  simp only [subSteps, a, b]

/-- Witness for C19: the constructed state and `staleExample`, whose `next`
differs at the interior cell `(50, 50)`. -/
theorem stale_scratch_witness :
    staleExample.next.read 50 50 = some 7 ∧ init.next.read 50 50 = some 0 ∧
      ∃ t, subStep staleExample = some t ∧ subStep init = some t := by
  have hw := (example_write (y := 50) (x := 50) (by decide) (by decide) 7).2
  refine ⟨(hw 50 50).trans (if_pos ⟨rfl, rfl⟩), zero_read (by decide) (by decide), ?_⟩
  refine (stale_scratch staleExample init staleExample_sized init_sized rfl rfl ?_).1
  intro y x _ _ _ _ hb
  exact (hw y x).trans (if_neg (by omega))

/-! ## Transposition -/

theorem transposeGrid_sized (g : Grid) : (transposeGrid g).Sized := by
  unfold transposeGrid
  refine ⟨by rw [List.length_map, List.length_range], ?_⟩
  intro row hrow
  rw [List.mem_map] at hrow
  obtain ⟨y, _, rfl⟩ := hrow
  rw [List.length_map, List.length_range]

theorem Grid.Sized.cell_outside {g : Grid} (hg : g.Sized) {y x : Int}
    (h : ¬ ((0 ≤ y ∧ y < 100) ∧ (0 ≤ x ∧ x < 100))) : g.cell y x = 0 := by
  have : (g.read y x).isSome ≠ true := fun hc => h ((hg.read_isSome_iff y x).1 hc)
  unfold Grid.cell
  rw [Option.not_isSome_iff_eq_none.1 this]
  rfl

theorem transposeGrid_cell {g : Grid} (hg : g.Sized) (y x : Int) :
    (transposeGrid g).cell y x = g.cell x y := by
  by_cases h : (0 ≤ y ∧ y < 100) ∧ (0 ≤ x ∧ x < 100)
  · obtain ⟨i, rfl⟩ := Int.eq_ofNat_of_zero_le h.1.1
    obtain ⟨j, rfl⟩ := Int.eq_ofNat_of_zero_le h.2.1
    apply Grid.cell_of_read
    have := tabulate_read 100 (fun a b => g.cell (Int.ofNat b) (Int.ofNat a)) i j
    rw [if_pos ⟨by omega, by omega⟩] at this
    exact this
  · rw [(transposeGrid_sized g).cell_outside h, hg.cell_outside (by omega)]

theorem transpose_sized (s : Membrane) : s.transpose.Sized :=
  ⟨transposeGrid_sized _, transposeGrid_sized _, transposeGrid_sized _⟩

theorem newValue_transpose {s : Membrane} (hs : s.Sized) (y x : Int) :
    newValue s.transpose y x =
      if isInsideCircle y x center center radius = true then
        stencil (s.current.cell x y) (s.previous.cell x y)
          (s.current.cell x (y + 1)) (s.current.cell x (y - 1))
          (s.current.cell (x + 1) y) (s.current.cell (x - 1) y)
      else 0 := by
  have hc : ∀ b a : Int, s.transpose.current.cell b a = s.current.cell a b :=
    fun b a => transposeGrid_cell hs.2.1 b a
  have hp : ∀ b a : Int, s.transpose.previous.cell b a = s.previous.cell a b :=
    fun b a => transposeGrid_cell hs.1 b a
  unfold newValue
  rw [inside_swap x y, hc, hc, hc, hc, hc, hp]

theorem Grid.Sized.read_cell {g : Grid} (hg : g.Sized) (y x : Int) :
    g.read y x = if (0 ≤ y ∧ y < 100) ∧ (0 ≤ x ∧ x < 100) then some (g.cell y x) else none := by
  by_cases h : (0 ≤ y ∧ y < 100) ∧ (0 ≤ x ∧ x < 100)
  · rw [if_pos h]
    exact hg.read_some (by unfold gridSize; omega) (by unfold gridSize; omega)
  · rw [if_neg h]
    have : (g.read y x).isSome ≠ true := fun hc => h ((hg.read_isSome_iff y x).1 hc)
    exact Option.not_isSome_iff_eq_none.1 this

/-- A sized grid is determined by its cells. -/
theorem Grid.Sized.ext_cell {g h : Grid} (hg : g.Sized) (hh : h.Sized)
    (hcell : ∀ y x : Int, g.cell y x = h.cell y x) : g = h := by
  apply Grid.Sized.ext hg hh
  intro y x _ _ _ _
  rw [hg.read_cell, hh.read_cell, hcell]

theorem interior_swap (y x : Int) : interior y x ↔ interior x y := by
  unfold interior
  exact ⟨fun h => ⟨h.2, h.1⟩, fun h => ⟨h.2, h.1⟩⟩

/-- Transposing and then stepping against stepping and then transposing: both
runs return, and their results are the same state exactly when the state is
`Balanced`. -/
theorem subStep_transpose {s : Membrane} (hs : s.Sized) :
    ∃ t u, subStep s = some t ∧ t.Sized ∧ subStep s.transpose = some u ∧
      (u = t.transpose ↔ Balanced s) := by
  obtain ⟨t, a1, a2, a3, a4, a5⟩ := subStep_cell hs
  obtain ⟨u, b1, b2, b3, b4, b5⟩ := subStep_cell (transpose_sized s)
  refine ⟨t, u, a1, a2, b1, ?_⟩
  have hprev : u.previous = transposeGrid t.previous := by rw [b3, a3]; rfl
  have hnext : u.next = transposeGrid t.next := by rw [b4, a4]; rfl
  have hn : ∀ y x : Int, s.transpose.next.cell y x = s.next.cell x y :=
    fun y x => transposeGrid_cell hs.2.2 y x
  constructor
  · intro h y x hi hin
    have hcur : u.current = transposeGrid t.current := by rw [h]; rfl
    have hcell : u.current.cell x y = (transposeGrid t.current).cell x y := by rw [hcur]
    rw [b5, transposeGrid_cell a2.2.1, a5, if_pos hi, if_pos ((interior_swap y x).1 hi),
      newValue_transpose hs, if_pos hin] at hcell
    unfold newValue at hcell
    rw [if_pos hin] at hcell
    exact hcell
  · intro hB
    have hcur : u.current = transposeGrid t.current := by
      apply Grid.Sized.ext_cell b2.2.1 (transposeGrid_sized _)
      intro y x
      rw [b5, transposeGrid_cell a2.2.1, a5, hn]
      by_cases hi : interior y x
      · rw [if_pos hi, if_pos ((interior_swap y x).1 hi), newValue_transpose hs]
        unfold newValue
        by_cases hin : isInsideCircle y x center center radius = true
        · rw [if_pos hin, if_pos hin]
          exact hB x y ((interior_swap y x).1 hi) hin
        · rw [if_neg hin, if_neg hin]
      · rw [if_neg hi, if_neg (fun hc => hi ((interior_swap y x).2 hc))]
    cases u
    simp only at hprev hnext hcur
    rw [hprev, hnext, hcur]
    rfl

theorem transposed_of_fixed {s : Membrane} (hs : s.Sized) (h : s.transpose = s) :
    Transposed s := by
  intro y x
  have h1 : transposeGrid s.previous = s.previous := congrArg Membrane.previous h
  have h2 : transposeGrid s.current = s.current := congrArg Membrane.current h
  have h3 : transposeGrid s.next = s.next := congrArg Membrane.next h
  refine ⟨?_, ?_, ?_⟩
  · have := transposeGrid_cell hs.1 y x
    rw [h1] at this; exact this
  · have := transposeGrid_cell hs.2.1 y x
    rw [h2] at this; exact this
  · have := transposeGrid_cell hs.2.2 y x
    rw [h3] at this; exact this

theorem mouseDown_transposed {s : Membrane} (hs : s.Sized) (h : Transposed s) (c : Int) :
    ∃ e, mouseDown s c c = some e ∧ e.Sized ∧ Transposed e := by
  by_cases ha : Accepted c c
  · obtain ⟨e, h1, h2, h3, h4, h5⟩ := mouseDown_accept hs ha
    refine ⟨e, h1, h2, ?_⟩
    intro y x
    have hsw : (x = c ∧ y = c) ↔ (y = c ∧ x = c) :=
      ⟨fun h => ⟨h.2, h.1⟩, fun h => ⟨h.2, h.1⟩⟩
    refine ⟨?_, ?_, by rw [h3]; exact (h y x).2.2⟩
    · unfold Grid.cell
      rw [h5, h5]
      by_cases hyx : y = c ∧ x = c
      · rw [if_pos hyx, if_pos (hsw.2 hyx)]
      · rw [if_neg hyx, if_neg (fun hc => hyx (hsw.1 hc))]
        exact (h y x).1
    · unfold Grid.cell
      rw [h4, h4]
      by_cases hyx : y = c ∧ x = c
      · rw [if_pos hyx, if_pos (hsw.2 hyx)]
      · rw [if_neg hyx, if_neg (fun hc => hyx (hsw.1 hc))]
        exact (h y x).2.1
  · exact ⟨s, mouseDown_reject s ha, hs, h⟩

theorem fixed_of_transposed {s : Membrane} (hs : s.Sized) (h : Transposed s) :
    s.transpose = s := by
  have e : ∀ g : Grid, g.Sized → (∀ y x : Int, g.cell y x = g.cell x y) →
      transposeGrid g = g := by
    intro g hg hsym
    apply Grid.Sized.ext_cell (transposeGrid_sized g) hg
    intro y x
    rw [transposeGrid_cell hg, ← hsym y x]
  cases s with
  | mk p c n =>
    show Membrane.mk (transposeGrid p) (transposeGrid c) (transposeGrid n) = Membrane.mk p c n
    rw [e p hs.1 (fun y x => (h y x).1), e c hs.2.1 (fun y x => (h y x).2.1),
      e n hs.2.2 (fun y x => (h y x).2.2)]

theorem init_transpose : init.transpose = init := by
  have h : transposeGrid (List.replicate 100 (List.replicate 100 (0 : ℚ))) =
      List.replicate 100 (List.replicate 100 (0 : ℚ)) := by
    apply Grid.Sized.ext_cell (transposeGrid_sized _) zero_sized
    intro y x
    rw [transposeGrid_cell zero_sized, zero_cell, zero_cell]
  show Membrane.mk _ _ _ = Membrane.mk _ _ _
  simp only [Membrane.mk.injEq]
  exact ⟨h, h, h⟩

theorem impulseExample_eq : mouseDown init 50 50 = some impulseExample := by
  obtain ⟨e, h1, _⟩ := impulse_cells accepted_centre
  unfold impulseExample
  rw [h1]
  rfl

theorem impulseExample_balanced : Balanced impulseExample := by
  obtain ⟨e, h1, _, hc, hp, _⟩ := impulse_cells accepted_centre
  have he : impulseExample = e := Option.some.inj (impulseExample_eq.symm.trans h1)
  rw [he]
  intro y x _ _
  simp only [hc, hp]
  unfold stencil
  split_ifs <;> first | rfl | (exfalso; omega) | decide!

theorem impulseExample_fixed : impulseExample.Sized ∧ impulseExample.transpose = impulseExample := by
  obtain ⟨e, h1, hq, hc, hp, hn⟩ := impulse_cells accepted_centre
  have he : impulseExample = e := Option.some.inj (impulseExample_eq.symm.trans h1)
  rw [he]
  refine ⟨hq.1, fixed_of_transposed hq.1 ?_⟩
  intro y x
  have hsw : (x = 50 ∧ y = 50) ↔ (y = 50 ∧ x = 50) :=
    ⟨fun h => ⟨h.2, h.1⟩, fun h => ⟨h.2, h.1⟩⟩
  rw [hc, hc, hp, hp, hn, hn]
  simp only [hsw, and_self]

theorem roundingExample_sized : roundingExample.Sized :=
  ⟨tabulate_sized _, tabulate_sized _, tabulate_sized _⟩

/-- The sub-step at the centre cell of `roundingExample` and of its transpose. -/
theorem roundingExample_cells :
    newValue roundingExample 50 50 = 4152361 / 281474976710656 ∧
      newValue roundingExample.transpose 50 50 = 0 := by
  have hc : ∀ y x : Int, roundingExample.current.cell y x =
      if (0 ≤ y ∧ y < 100) ∧ (0 ≤ x ∧ x < 100) then
        (if y.toNat = 51 ∧ x.toNat = 50 then 1 else if y.toNat = 49 ∧ x.toNat = 50 then -1
          else if y.toNat = 50 ∧ (x.toNat = 51 ∨ x.toNat = 49) then 1 / 33554432 else 0)
      else 0 := fun y x => tabulate_cell _ y x
  have hp : ∀ y x : Int, roundingExample.previous.cell y x =
      if (0 ≤ y ∧ y < 100) ∧ (0 ≤ x ∧ x < 100) then 0 else 0 := fun y x => tabulate_cell _ y x
  constructor
  · unfold newValue
    simp only [hc, hp]
    decide!
  · rw [newValue_transpose roundingExample_sized]
    simp only [hc, hp]
    decide!

/-! ## Active cells on the edge of the circle -/

theorem active_low {a b : Int} (h : (a - 50) * (a - 50) + (b - 50) * (b - 50) ≤ 2401)
    (ha : a ≤ 1) (ha0 : 0 ≤ a) : a = 1 ∧ b = 50 := by
  have hsq := mul_self_nonneg (b - 50)
  have h01 : a = 0 ∨ a = 1 := by omega
  rcases h01 with rfl | rfl
  · norm_num at h; linarith
  · norm_num at h
    have hz : (b - 50) * (b - 50) = 0 := le_antisymm h hsq
    have := mul_self_eq_zero.1 hz
    exact ⟨rfl, by omega⟩

theorem active_high {a b : Int} (h : (a - 50) * (a - 50) + (b - 50) * (b - 50) ≤ 2401)
    (ha : 99 ≤ a) (ha0 : a ≤ 99) : a = 99 ∧ b = 50 := by
  have hsq := mul_self_nonneg (b - 50)
  have h99 : a = 99 := by omega
  subst h99
  norm_num at h
  have hz : (b - 50) * (b - 50) = 0 := le_antisymm h hsq
  have := mul_self_eq_zero.1 hz
  exact ⟨rfl, by omega⟩

theorem accepted_iff_active {x y : Int} (hx : 0 ≤ x ∧ x ≤ 99) (hy : 0 ≤ y ∧ y ≤ 99) :
    Accepted x y ↔ (isInsideCircle x y center center radius = true ∧
      ¬ ((x = 1 ∧ y = 50) ∨ (x = 50 ∧ y = 1) ∨ (x = 99 ∧ y = 50) ∨ (x = 50 ∧ y = 99))) := by
  rw [inside_iff]
  unfold Accepted
  constructor
  · rintro ⟨h1, h2, h3, h4, h5⟩
    exact ⟨h5, by omega⟩
  · rintro ⟨h5, hn⟩
    have h5' : (y - 50) * (y - 50) + (x - 50) * (x - 50) ≤ 2401 := by linarith
    refine ⟨?_, ?_, ?_, ?_, h5⟩
    · by_contra hc
      have := active_low h5 (by omega) hx.1
      omega
    · by_contra hc
      have := active_high h5 (by omega) hx.2
      omega
    · by_contra hc
      have := active_low h5' (by omega) hy.1
      omega
    · by_contra hc
      have := active_high h5' (by omega) hy.2
      omega

theorem mouseDown_changes {x y : Int} (h : Accepted x y) : mouseDown init x y ≠ some init := by
  obtain ⟨e, h1, _, hc, _, _⟩ := impulse_cells h
  rw [h1]
  intro hcon
  have he : e = init := Option.some.inj hcon
  have h1' := hc y x
  rw [he, if_pos ⟨rfl, rfl⟩] at h1'
  have hz : init.current.cell y x = 0 := zero_cell y x
  rw [hz] at h1'
  exact zero_ne_one h1'

theorem read_swap {g : Grid} (hg : g.Sized) (h : ∀ y x : Int, g.cell y x = g.cell x y)
    (y x : Int) : g.read y x = g.read x y := by
  rw [hg.read_cell, hg.read_cell, h y x]
  by_cases hr : (0 ≤ y ∧ y < 100) ∧ (0 ≤ x ∧ x < 100)
  · rw [if_pos hr, if_pos ⟨hr.2, hr.1⟩]
  · rw [if_neg hr, if_neg (fun hc => hr ⟨hc.2, hc.1⟩)]

theorem transposeGrid_read {g : Grid} (hg : g.Sized) (y x : Int) :
    (transposeGrid g).read y x = g.read x y := by
  rw [(transposeGrid_sized g).read_cell, hg.read_cell, transposeGrid_cell hg]
  by_cases hr : (0 ≤ y ∧ y < 100) ∧ (0 ≤ x ∧ x < 100)
  · rw [if_pos hr, if_pos ⟨hr.2, hr.1⟩]
  · rw [if_neg hr, if_neg (fun hc => hr ⟨hc.2, hc.1⟩)]

theorem four_active {x y : Int}
    (h : (x = 1 ∧ y = 50) ∨ (x = 50 ∧ y = 1) ∨ (x = 99 ∧ y = 50) ∨ (x = 50 ∧ y = 99)) :
    isInsideCircle x y center center radius = true ∧ ¬ Accepted x y := by
  rcases h with ⟨rfl, rfl⟩ | ⟨rfl, rfl⟩ | ⟨rfl, rfl⟩ | ⟨rfl, rfl⟩
  · exact ⟨by decide, by unfold Accepted; omega⟩
  · exact ⟨by decide, by unfold Accepted; omega⟩
  · exact ⟨by decide, by unfold Accepted; omega⟩
  · exact ⟨by decide, by unfold Accepted; omega⟩

/-- C16, excitable set versus active set: for in-range cells `0 <= x, y <= 99`,
the guard of `excite` holds (equivalently, `excite(x,y)` changes the constructed
state) if and only if the cell is active and is not one of `(1,50)`, `(50,1)`,
`(99,50)`, `(50,99)`; these four are exactly the active cells that `excite`
leaves every state unchanged on; and the active cells on the border ring, which
are the cells the integrator never updates, are exactly `(99,50)` and
`(50,99)`. -/
theorem excitable_vs_active (x y : Int) (hx : 0 ≤ x ∧ x ≤ 99) (hy : 0 ≤ y ∧ y ≤ 99) :
    ((decide (x > 1) && decide (x < gridSize - 1) && decide (y > 1) && decide (y < gridSize - 1)
        && isInsideCircle x y center center radius) = true ↔
      (isInsideCircle x y center center radius = true ∧
        ¬ ((x = 1 ∧ y = 50) ∨ (x = 50 ∧ y = 1) ∨ (x = 99 ∧ y = 50) ∨ (x = 50 ∧ y = 99)))) ∧
    (mouseDown init x y ≠ some init ↔
      (isInsideCircle x y center center radius = true ∧
        ¬ ((x = 1 ∧ y = 50) ∨ (x = 50 ∧ y = 1) ∨ (x = 99 ∧ y = 50) ∨ (x = 50 ∧ y = 99)))) ∧
    ((isInsideCircle x y center center radius = true ∧
        ∀ s : Membrane, mouseDown s x y = some s) ↔
      ((x = 1 ∧ y = 50) ∨ (x = 50 ∧ y = 1) ∨ (x = 99 ∧ y = 50) ∨ (x = 50 ∧ y = 99))) ∧
    (¬ interior y x ↔ (x = 0 ∨ x = 99 ∨ y = 0 ∨ y = 99)) ∧
    ((isInsideCircle x y center center radius = true ∧ ¬ interior y x) ↔
      ((x = 99 ∧ y = 50) ∨ (x = 50 ∧ y = 99))) := by
  have hA := accepted_iff_active hx hy
  have hB : ¬ interior y x ↔ (x = 0 ∨ x = 99 ∨ y = 0 ∨ y = 99) := by
    rw [interior_iff]; omega
  refine ⟨(mouseDown_guard x y).trans hA, ?_, ?_, hB, ?_⟩
  · constructor
    · intro hne
      by_contra hcon
      exact hne (mouseDown_reject init (fun ha => hcon (hA.1 ha)))
    · intro h
      exact mouseDown_changes (hA.2 h)
  · constructor
    · rintro ⟨hin, hrej⟩
      by_contra hcon
      exact mouseDown_changes (hA.2 ⟨hin, hcon⟩) (hrej init)
    · intro h4
      exact ⟨(four_active h4).1, fun s => mouseDown_reject s (four_active h4).2⟩
  · constructor
    · rintro ⟨hin, hni⟩
      by_contra hcon
      have h5 := (inside_iff x y).1 hin
      have h5' : (y - 50) * (y - 50) + (x - 50) * (x - 50) ≤ 2401 := by linarith
      rcases hB.1 hni with h | h | h | h
      · have := active_low h5 (by omega) hx.1
        omega
      · have := active_high h5 (by omega) hx.2
        omega
      · have := active_low h5' (by omega) hy.1
        omega
      · have := active_high h5' (by omega) hy.2
        omega
    · intro h2
      refine ⟨(four_active (by omega)).1, hB.2 (by omega)⟩

/-- Witness for C16: `(1, 50)` is active and never excited, `(50, 50)` is
excitable. -/
theorem excitable_vs_active_witness :
    (isInsideCircle 1 50 center center radius = true ∧
      ∀ s : Membrane, mouseDown s 1 50 = some s) ∧
    mouseDown init 50 50 ≠ some init :=
  ⟨(excitable_vs_active 1 50 (by decide) (by decide)).2.2.1.2 (Or.inl ⟨rfl, rfl⟩),
    (excitable_vs_active 50 50 (by decide) (by decide)).2.1.2 ⟨by decide, by decide⟩⟩

/-- Counterexample to C18 as stated.  In the 100x100 state `roundingExample`
(`current[51][50] = 1`, `current[49][50] = -1`,
`current[50][51] = current[50][49] = 2^-25`, everything else `0`) one sub-step
gives `current[50][50] = 4152361 / 2^48`, while the sub-step of the transposed
state gives `current[50][50] = 0`, because there `2^-24 + 1` is rounded to `1`
before `-1` is added; so transposing and then stepping is not stepping and
then transposing.  And after `excite(50,50)` on the constructed state, which
is transpose-symmetric, and 5 sub-steps, `current[49][52] = 7480779 / 33554432`
differs from `current[52][49] = 14961557 / 67108864`. -/
theorem transpose_equivariance_fails :
    (roundingExample.Sized ∧
      ∃ t u, subStep roundingExample = some t ∧ subStep roundingExample.transpose = some u ∧
        t.current.read 50 50 = some (4152361 / 281474976710656) ∧
        t.transpose.current.read 50 50 = some (4152361 / 281474976710656) ∧
        u.current.read 50 50 = some 0 ∧ u ≠ t.transpose) ∧
    (init.Sized ∧ init.transpose = init ∧
      ∃ e t, mouseDown init 50 50 = some e ∧ subSteps 5 e = some t ∧
        t.current.read 49 52 = some (7480779 / 33554432) ∧
        t.current.read 52 49 = some (14961557 / 67108864) ∧
        t.current.read 49 52 ≠ t.current.read 52 49) := by
  constructor
  · obtain ⟨t, a1, a2, _, _, a5⟩ := subStep_cell roundingExample_sized
    obtain ⟨u, b1, b2, _, _, b5⟩ := subStep_cell (transpose_sized roundingExample)
    have i50 : interior 50 50 := by rw [interior_iff]; omega
    have r1 : t.current.read 50 50 = some (4152361 / 281474976710656) := by
      rw [a2.2.1.read_some (by decide) (by decide), a5, if_pos i50, roundingExample_cells.1]
    have r2 : t.transpose.current.read 50 50 = some (4152361 / 281474976710656) := by
      rw [(transpose_sized t).2.1.read_some (by decide) (by decide)]
      show some ((transposeGrid t.current).cell 50 50) = _
      rw [transposeGrid_cell a2.2.1, a5, if_pos i50, roundingExample_cells.1]
    have r3 : u.current.read 50 50 = some 0 := by
      rw [b2.2.1.read_some (by decide) (by decide), b5, if_pos i50, roundingExample_cells.2]
    refine ⟨roundingExample_sized, t, u, a1, b1, r1, r2, r3, ?_⟩
    intro h
    rw [h, r2] at r3
    exact absurd (Option.some.inj r3) (by decide!)
  · obtain ⟨e, t, h1, h2, hq, _, _, hA, _⟩ := impulse_response 5
    have hA5 := hA (le_refl _)
    have r1 : t.current.read 49 52 = some (7480779 / 33554432) := by
      rw [hq.1.2.1.read_some (by decide) (by decide), (hA5 49 52).1]
      exact congrArg some window5_cells.2.1
    have r2 : t.current.read 52 49 = some (14961557 / 67108864) := by
      rw [hq.1.2.1.read_some (by decide) (by decide), (hA5 52 49).1]
      exact congrArg some window5_cells.2.2
    refine ⟨init_sized, init_transpose, e, t, h1, h2, r1, r2, ?_⟩
    rw [r1, r2]
    decide!

/-- C18 as amended, transpose equivariance: on a state with 100x100 grids,
`transpose` exchanges the roles of `x` and `y` in all three grids; transposing
and then performing one integration sub-step gives the same state as
performing the sub-step and then transposing if and only if the state is
`Balanced`, that is, at every active interior cell the `float` update is the
same when the horizontal neighbours are summed before the vertical ones;
`excite(c,c)` keeps a transpose-symmetric state transpose-symmetric, and so
does a sub-step from a `Balanced` transpose-symmetric state. -/
theorem transpose_equivariance (s : Membrane) (hs : s.Sized) :
    (∀ y x : Int, s.transpose.previous.read y x = s.previous.read x y ∧
      s.transpose.current.read y x = s.current.read x y ∧
      s.transpose.next.read y x = s.next.read x y) ∧
    (∃ t u, subStep s = some t ∧ subStep s.transpose = some u ∧
      (u = t.transpose ↔ Balanced s)) ∧
    (s.transpose = s → ∀ c : Int, ∃ e, mouseDown s c c = some e ∧ e.transpose = e) ∧
    (s.transpose = s → Balanced s → ∃ t, subStep s = some t ∧ t.transpose = t ∧
      ∀ y x : Int, t.current.read y x = t.current.read x y) := by
  refine ⟨fun y x => ⟨transposeGrid_read hs.1 y x, transposeGrid_read hs.2.1 y x,
    transposeGrid_read hs.2.2 y x⟩, ?_, ?_, ?_⟩
  · obtain ⟨t, u, h1, _, h3, h4⟩ := subStep_transpose hs
    exact ⟨t, u, h1, h3, h4⟩
  · intro hfix c
    obtain ⟨e, h1, h2, h3⟩ := mouseDown_transposed hs (transposed_of_fixed hs hfix) c
    exact ⟨e, h1, fixed_of_transposed h2 h3⟩
  · intro hfix hB
    obtain ⟨t, u, h1, h2, h3, h4⟩ := subStep_transpose hs
    rw [hfix, h1] at h3
    have hut : u = t := (Option.some.inj h3).symm
    have hfix' : t.transpose = t := by
      have := h4.2 hB
      rw [hut] at this
      exact this.symm
    exact ⟨t, h1, hfix', read_swap h2.2.1 (fun y x =>
      (transposed_of_fixed h2 hfix' y x).2.1)⟩

/-- Witness for C18 as amended, on the state right after `excite(50,50)`, which
is transpose-symmetric and `Balanced`: there the two runs agree and the
sub-step keeps the state transpose-symmetric. -/
theorem transpose_equivariance_witness :
    impulseExample.Sized ∧ impulseExample.transpose = impulseExample ∧
      Balanced impulseExample ∧
      (∃ t u, subStep impulseExample = some t ∧ subStep impulseExample.transpose = some u ∧
        (u = t.transpose ↔ Balanced impulseExample)) ∧
      ∃ t, subStep impulseExample = some t ∧ t.transpose = t ∧
        ∀ y x : Int, t.current.read y x = t.current.read x y :=
  ⟨impulseExample_fixed.1, impulseExample_fixed.2, impulseExample_balanced,
    (transpose_equivariance impulseExample impulseExample_fixed.1).2.1,
    (transpose_equivariance impulseExample impulseExample_fixed.1).2.2.2
      impulseExample_fixed.2 impulseExample_balanced⟩

/-! ## The brightness transform of `paint` -/

theorem jlimit_range {K : Type} [LinearOrderedField K] (w : K) :
    0 ≤ jlimit 0 1 w ∧ jlimit 0 1 w ≤ 1 := by
  unfold jlimit
  by_cases h0 : w < 0
  · rw [if_pos h0]; exact ⟨le_refl _, zero_le_one⟩
  · rw [if_neg h0]
    by_cases h1 : 1 < w
    · rw [if_pos h1]; exact ⟨zero_le_one, le_refl _⟩
    · rw [if_neg h1]; exact ⟨not_lt.1 h0, not_lt.1 h1⟩

theorem jlimit_id {K : Type} [LinearOrderedField K] {w : K} (h0 : 0 ≤ w) (h1 : w ≤ 1) :
    jlimit 0 1 w = w := by
  unfold jlimit
  rw [if_neg (not_lt.2 h0), if_neg (not_lt.2 h1)]

theorem truncate_nonneg {K : Type} [LinearOrderedField K] [FloorRing K] {v : K} (h : 0 ≤ v) :
    truncate v = Int.floor v := by
  unfold truncate
  rw [if_pos h]

theorem logb_101_pos : 0 < Real.logb 10 101 :=
  Real.logb_pos (by norm_num) (by norm_num)

theorem logValue_nonneg (v : ℝ) : 0 ≤ logValue (Real.logb 10) v := by
  unfold logValue
  apply div_nonneg _ logb_101_pos.le
  apply Real.logb_nonneg (by norm_num)
  have := abs_nonneg v
  linarith

theorem logValue_le_one {v : ℝ} (h : |v| ≤ 1) : logValue (Real.logb 10) v ≤ 1 := by
  unfold logValue
  rw [div_le_one logb_101_pos]
  have h0 := abs_nonneg v
  exact Real.logb_le_logb_of_le (by norm_num) (by linarith) (by linarith)

theorem scaled_eq (v : ℝ) :
    scaled (Real.logb 10) v =
      if v < 0 then 1 / 2 - 1 / 2 * logValue (Real.logb 10) v
      else 1 / 2 + 1 / 2 * logValue (Real.logb 10) v := by
  unfold scaled copysign
  rw [abs_of_nonneg (logValue_nonneg v)]
  split
  · ring
  · rfl

theorem logValue_zero : logValue (Real.logb 10) (0 : ℝ) = 0 := by
  unfold logValue
  simp

theorem logValue_unit {v : ℝ} (h : |v| = 1) : logValue (Real.logb 10) v = 1 := by
  unfold logValue
  rw [h]
  have e : (1 : ℝ) + 1 * 100 = 101 := by norm_num
  rw [e]
  exact div_self logb_101_pos.ne'

theorem brightness_floor (v : ℝ) :
    brightness (Real.logb 10) v =
      Int.floor (jlimit 0 1 (1 / 2 + 1 / 2 * scaled (Real.logb 10) v) * 255) := by
  unfold brightness
  exact truncate_nonneg (mul_nonneg (jlimit_range _).1 (by norm_num))

theorem brightness_range (v : ℝ) :
    0 ≤ brightness (Real.logb 10) v ∧ brightness (Real.logb 10) v ≤ 255 := by
  rw [brightness_floor]
  obtain ⟨h0, h1⟩ := jlimit_range (1 / 2 + 1 / 2 * scaled (Real.logb 10) v)
  constructor
  · exact Int.floor_nonneg.2 (mul_nonneg h0 (by norm_num))
  · have hle := Int.floor_le (jlimit 0 1 (1 / 2 + 1 / 2 * scaled (Real.logb 10) v) * 255)
    have : ((Int.floor (jlimit 0 1 (1 / 2 + 1 / 2 * scaled (Real.logb 10) v) * 255) : Int) : ℝ)
        ≤ ((255 : Int) : ℝ) := by
      push_cast
      nlinarith
    exact_mod_cast this

theorem scaled_range {v : ℝ} (h : |v| ≤ 1) :
    0 ≤ scaled (Real.logb 10) v ∧ scaled (Real.logb 10) v ≤ 1 := by
  have h0 := logValue_nonneg v
  have h1 := logValue_le_one h
  rw [scaled_eq]
  split
  · constructor <;> linarith
  · constructor <;> linarith

theorem brightness_upper_half {v : ℝ} (h : |v| ≤ 1) : 127 ≤ brightness (Real.logb 10) v := by
  obtain ⟨h0, h1⟩ := scaled_range h
  rw [brightness_floor, jlimit_id (by linarith) (by linarith), Int.le_floor]
  push_cast
  linarith

theorem brightness_zero : brightness (Real.logb 10) (0 : ℝ) = 191 := by
  have hs : scaled (Real.logb 10) (0 : ℝ) = 1 / 2 := by
    rw [scaled_eq, if_neg (lt_irrefl _), logValue_zero]; norm_num
  rw [brightness_floor, hs, jlimit_id (by norm_num) (by norm_num), Int.floor_eq_iff]
  constructor <;> norm_num

theorem brightness_one : brightness (Real.logb 10) (1 : ℝ) = 255 := by
  have hs : scaled (Real.logb 10) (1 : ℝ) = 1 := by
    rw [scaled_eq, if_neg (by norm_num), logValue_unit (by norm_num)]; norm_num
  rw [brightness_floor, hs, jlimit_id (by norm_num) (by norm_num), Int.floor_eq_iff]
  constructor <;> norm_num

theorem brightness_neg_one : brightness (Real.logb 10) (-1 : ℝ) = 127 := by
  have hs : scaled (Real.logb 10) (-1 : ℝ) = 0 := by
    rw [scaled_eq, if_pos (by norm_num), logValue_unit (by norm_num)]; norm_num
  rw [brightness_floor, hs, jlimit_id (by norm_num) (by norm_num), Int.floor_eq_iff]
  constructor <;> norm_num

theorem scaled_sign (v : ℝ) :
    scaled (Real.logb 10) v =
      1 / 2 + 1 / 2 * ((SignType.sign v : SignType) : ℝ) * logValue (Real.logb 10) v := by
  rw [scaled_eq]
  rcases lt_trichotomy v 0 with h | h | h
  · rw [if_pos h, sign_neg h, SignType.coe_neg_one]; ring
  · subst h
    rw [if_neg (lt_irrefl _), logValue_zero]; simp
  · rw [if_neg (not_lt.2 h.le), sign_pos h, SignType.coe_one]; ring

/-- C11, brightness transform bounds: with `logValue = log10(1+|v|*100)/log10(101)`,
`scaled = 0.5 + 0.5*sign(v)*logValue` (the code's `copysign` form agrees with it)
and `brightness = trunc(clamp01(0.5 + 0.5*scaled)*255)`, for every real `v`, in
particular for `v` in `[-1, 1]`, the brightness is an integer in `[0, 255]`; and
`v = 0` maps to brightness `191`, which is one of `191`, `192`. -/
theorem brightness_bounds (v : ℝ) :
    logValue (Real.logb 10) v = Real.logb 10 (1 + |v| * 100) / Real.logb 10 101 ∧
    scaled (Real.logb 10) v =
      1 / 2 + 1 / 2 * ((SignType.sign v : SignType) : ℝ) * logValue (Real.logb 10) v ∧
    brightness (Real.logb 10) v =
      truncate (jlimit 0 1 (1 / 2 + 1 / 2 * scaled (Real.logb 10) v) * 255) ∧
    (0 ≤ brightness (Real.logb 10) v ∧ brightness (Real.logb 10) v ≤ 255) ∧
    (brightness (Real.logb 10) (0 : ℝ) = 191 ∨ brightness (Real.logb 10) (0 : ℝ) = 192) :=
  ⟨rfl, scaled_sign v, rfl, brightness_range v, Or.inl brightness_zero⟩

/-- C12, double-affine range collapse: for every real `v` with `|v| <= 1`,
`logValue` lies in `[0, 1]` and the brightness lies in `[127, 255]`; `v = -1`
maps to `127` and `v = 1` maps to `255`. -/
theorem brightness_collapse (v : ℝ) (h : |v| ≤ 1) :
    (0 ≤ logValue (Real.logb 10) v ∧ logValue (Real.logb 10) v ≤ 1) ∧
    (127 ≤ brightness (Real.logb 10) v ∧ brightness (Real.logb 10) v ≤ 255) ∧
    brightness (Real.logb 10) (-1 : ℝ) = 127 ∧ brightness (Real.logb 10) (1 : ℝ) = 255 :=
  ⟨⟨logValue_nonneg v, logValue_le_one h⟩, ⟨brightness_upper_half h, (brightness_range v).2⟩,
    brightness_neg_one, brightness_one⟩

/-- Witness for C12 at `v = 1/2`. -/
theorem brightness_collapse_witness :
    |(1 / 2 : ℝ)| ≤ 1 ∧ 127 ≤ brightness (Real.logb 10) (1 / 2 : ℝ) ∧
      brightness (Real.logb 10) (1 / 2 : ℝ) ≤ 255 :=
  ⟨abs_le.2 ⟨by norm_num, by norm_num⟩,
    (brightness_collapse (1 / 2) (abs_le.2 ⟨by norm_num, by norm_num⟩)).2.1⟩

end VibratingMembrane
